import Mathlib

/-!
# Verification of the AI-Voice-Agent restaurant-booking core

Shallow embedding of the repository's time-slot allocation engine
(`models/TimeSlot`, `services/timeSlotService`), its bilingual extraction
utilities (`utils/bilingualNLP.ts`) and the dialogue slot manager
(`services/slotManager`), together with theorems settling the frozen claims
about them.

JS numbers that hold seat counts are modelled as `Int` (so that
non-negativity is provable, not assumed); strings are Lean `String`s and the
pattern matching of the source's regular expressions is implemented by
explicit scanners over `List Char` with the same leftmost-match semantics.
-/

namespace VoiceAgent

/-! ## Character classes used by the source's regular expressions -/

/-- JS `\d`. -/
def isDigitChar (c : Char) : Bool := '0' ≤ c && c ≤ '9'

/-- Lower-case ASCII letter, the `[a-z]` class (inputs are lower-cased first). -/
def isLowerAlpha (c : Char) : Bool := 'a' ≤ c && c ≤ 'z'

/-- JS `\s` (the whitespace characters relevant to this code base). -/
def isWsChar (c : Char) : Bool :=
  c = ' ' || c = '\t' || c = '\n' || c = '\r' || c = '\x0b' || c = '\x0c'

/-- JS `\w`, the word characters used by the `\b` boundary assertion. -/
def isWordChar (c : Char) : Bool :=
  isLowerAlpha c || ('A' ≤ c && c ≤ 'Z') || isDigitChar c || c = '_'

/-- The apostrophe character (appears in the name pattern `i'm`). -/
def apos : Char := Char.ofNat 39

/-- Digit character to its value. -/
def digitVal (c : Char) : Nat := c.toNat - '0'.toNat

/-- `parseInt` on a non-empty run of decimal digits. -/
def parseDigits (ds : List Char) : Nat :=
  ds.foldl (fun acc c => 10 * acc + digitVal c) 0

/-! ## Generic scanners (leftmost-match regex semantics) -/

/-- Try to strip `p` as a literal prefix of `s`, returning the remainder. -/
def matchPrefix : List Char → List Char → Option (List Char)
  | [], s => some s
  | _ :: _, [] => none
  | a :: p, c :: s => if a = c then matchPrefix p s else none

/-- Run a positional matcher at every position left to right, returning the
first success: the leftmost-match rule of JS `String.match`. -/
def scanFor {α : Type} (f : List Char → Option α) : List Char → Option α
  | [] => f []
  | c :: rest =>
    match f (c :: rest) with
    | some v => some v
    | none => scanFor f rest

/-- Match `\s+` (greedy): requires one whitespace character and consumes the
maximal whitespace run. -/
def matchWs1 : List Char → Option (List Char)
  | [] => none
  | c :: rest => if isWsChar c then some (rest.dropWhile isWsChar) else none

/-- Match `\s*` (greedy). -/
def matchWs0 (s : List Char) : List Char := s.dropWhile isWsChar

/-- Match a non-empty maximal run of characters satisfying `p` (e.g. `[a-z]+`,
`\d+`, `\w+`), returning the run and the remainder. -/
def matchRun1 (p : Char → Bool) (s : List Char) : Option (List Char × List Char) :=
  let run := s.takeWhile p
  if run.isEmpty then none else some (run, s.dropWhile p)

/-- Does `s` start (at its very beginning) with the word `w` followed by a
`\b` boundary?  `prev` is the character just before `s`, if any. -/
def wordAtHead (w : List Char) (prev : Option Char) (s : List Char) : Bool :=
  (match prev with
   | none => true
   | some c => !isWordChar c) &&
  (match matchPrefix w s with
   | none => false
   | some rest =>
     match rest with
     | [] => true
     | c :: _ => !isWordChar c)

/-- Auxiliary scanner for `containsWord`. -/
def containsWordAux (w : List Char) : Option Char → List Char → Bool
  | prev, s =>
    wordAtHead w prev s ||
      match s with
      | [] => false
      | c :: rest => containsWordAux w (some c) rest

/-- The test `new RegExp("\\b" + w + "\\b").test(s)` for a word `w` made of
word characters. -/
def containsWord (w : List Char) (s : List Char) : Bool :=
  containsWordAux w none s

/-- The test `s.includes(w)` (plain substring containment, no boundaries). -/
def containsSub (w : List Char) (s : List Char) : Bool :=
  (scanFor (fun t => if (matchPrefix w t).isSome then some () else none) s).isSome

/-! ## The `TimeSlot` bucket (`models/TimeSlot`, src/unnamed/part_008)

A Mongo document `{date, time, capacity, booked, isBlocked, blockedBy?,
blockedReason?, bookingIds}`.  The `date`/`time` identity key plays no role in
the per-bucket methods, so a bucket is modelled by its mutable payload. -/

structure TimeSlot where
  capacity : Int
  booked : Int
  isBlocked : Bool
  blockedBy : Option String
  blockedReason : Option String
  bookingIds : List String
  deriving Repr, DecidableEq

/-- The mongoose schema's `min: 0` validators on `capacity` and `booked`:
every persistable bucket satisfies this. -/
def TimeSlot.schemaValid (s : TimeSlot) : Prop :=
  0 ≤ s.capacity ∧ 0 ≤ s.booked

/-- `TimeSlotSchema.methods.hasAvailability`. -/
def hasAvailability (s : TimeSlot) (guestCount : Int) : Bool :=
  if s.isBlocked then false
  else decide (s.capacity - s.booked ≥ guestCount)

/-- `TimeSlotSchema.methods.bookSeats`: returns the JS boolean result together
with the updated document. -/
def bookSeats (s : TimeSlot) (guestCount : Int) (bookingId : String) :
    Bool × TimeSlot :=
  if !hasAvailability s guestCount then (false, s)
  else
    (true,
      { s with
        booked := s.booked + guestCount
        bookingIds := s.bookingIds ++ [bookingId] })

/-- `TimeSlotSchema.methods.releaseSeats`. -/
def releaseSeats (s : TimeSlot) (guestCount : Int) (bookingId : String) :
    TimeSlot :=
  { s with
    booked := max 0 (s.booked - guestCount)
    bookingIds := s.bookingIds.filter (fun id => id ≠ bookingId) }

/-- A freshly created bucket, as materialised by `getOrCreateSlot`:
default capacity 50, nothing booked, not blocked. -/
def freshSlot : TimeSlot :=
  { capacity := 50, booked := 0, isBlocked := false,
    blockedBy := none, blockedReason := none, bookingIds := [] }

/-! ## Operation sequences on one bucket (claim C1) -/

/-- One call against a bucket: `bookSeats` or `releaseSeats`. -/
inductive SlotOp where
  | book (guestCount : Int) (bookingId : String)
  | release (guestCount : Int) (bookingId : String)
  deriving Repr, DecidableEq

/-- The guest count carried by an operation. -/
def SlotOp.guests : SlotOp → Int
  | .book g _ => g
  | .release g _ => g

/-- Apply one operation (the boolean result of `bookSeats` is discarded; on
failure the document is unchanged). -/
def applyOp (s : TimeSlot) : SlotOp → TimeSlot
  | .book g id => (bookSeats s g id).2
  | .release g id => releaseSeats s g id

/-- Run a sequence of operations left to right. -/
def runOps (s : TimeSlot) (ops : List SlotOp) : TimeSlot :=
  ops.foldl applyOp s

/-- The capacity invariant of the spec: `0 ≤ booked ≤ capacity`. -/
def bookedInvariant (s : TimeSlot) : Prop :=
  0 ≤ s.booked ∧ s.booked ≤ s.capacity

instance (s : TimeSlot) : Decidable (bookedInvariant s) := by
  unfold bookedInvariant; infer_instance

theorem applyOp_invariant (s : TimeSlot) (op : SlotOp)
    (hinv : bookedInvariant s) (hg : 1 ≤ op.guests) :
    bookedInvariant (applyOp s op) := by
  obtain ⟨h0, hc⟩ := hinv
  cases op with
  | book g id =>
    have hg' : (1 : Int) ≤ g := hg
    simp only [applyOp, bookSeats]
    by_cases hav : hasAvailability s g = true
    · have hroom : s.capacity - s.booked ≥ g := by
        simp only [hasAvailability] at hav
        by_cases hb : s.isBlocked
        · simp [hb] at hav
        · simpa [hb] using hav
      rw [hav]
      simp only [Bool.not_true, Bool.false_eq_true, if_false]
      refine ⟨?_, ?_⟩ <;> dsimp only <;> omega
    · simp only [Bool.not_eq_true] at hav
      rw [hav]
      simp only [Bool.not_false, if_true]
      exact ⟨h0, hc⟩
  | release g id =>
    simp only [applyOp, releaseSeats]
    constructor
    · exact le_max_left 0 _
    · have : (1 : Int) ≤ g := hg
      have hcap : 0 ≤ s.capacity := le_trans h0 hc
      simp only [max_le_iff]
      omega

/-- **C1.** Starting from a freshly created bucket (`booked = 0`,
`capacity = 50`), after any sequence of `bookSeats` / `releaseSeats` calls in
which every call carries `guestCount ≥ 1`, the invariant
`0 ≤ booked ≤ capacity` holds.  (Quantifying over all sequences settles the
invariant after every intermediate operation as well: every prefix is itself
a sequence.) -/
theorem fresh_bucket_booked_invariant (ops : List SlotOp)
    (hg : ∀ op ∈ ops, 1 ≤ op.guests) :
    bookedInvariant (runOps freshSlot ops) := by
  have general :
      ∀ (l : List SlotOp) (s : TimeSlot), bookedInvariant s →
        (∀ op ∈ l, 1 ≤ op.guests) → bookedInvariant (runOps s l) := by
    intro l
    induction l with
    | nil => intro s hs _; exact hs
    | cons op rest ih =>
      intro s hs hl
      have hop : 1 ≤ op.guests := hl op (List.mem_cons_self op rest)
      have hrest : ∀ o ∈ rest, 1 ≤ o.guests :=
        fun o ho => hl o (List.mem_cons_of_mem op ho)
      exact ih (applyOp s op) (applyOp_invariant s op hs hop) hrest
  exact general ops freshSlot (by constructor <;> norm_num [freshSlot]) hg

/-- Witness for `fresh_bucket_booked_invariant` at a concrete sequence. -/
theorem fresh_bucket_booked_invariant_witness :
    (∀ op ∈ [SlotOp.book 3 "a", SlotOp.release 5 "a"], 1 ≤ op.guests) ∧
      bookedInvariant (runOps freshSlot [SlotOp.book 3 "a", SlotOp.release 5 "a"]) :=
  ⟨by decide,
   fresh_bucket_booked_invariant [SlotOp.book 3 "a", SlotOp.release 5 "a"]
     (by decide)⟩

/-! ## The time-slot service's reservation call (claims C2, C3)

`TimeSlotService.bookSlot` (src/unnamed/part_013): after lazily materialising
the bucket it re-checks availability, books the seats and saves; on the
conflict path the persisted document is untouched. -/

/-- The `{success, message}` result of `TimeSlotService.bookSlot`. -/
structure BookResult where
  success : Bool
  message : String
  deriving Repr, DecidableEq

/-- `TimeSlotService.bookSlot`, acting on the (lazily created) target bucket;
returns the result object and the bucket as persisted afterwards.  The inner
`if (!booked)` branch returns without saving, so the persisted bucket is the
original one there. -/
def bookSlot (slot : TimeSlot) (guestCount : Int) (bookingId : String) :
    BookResult × TimeSlot :=
  if !hasAvailability slot guestCount then
    ({ success := false, message := "Time slot is fully booked or blocked." }, slot)
  else
    let r := bookSeats slot guestCount bookingId
    if !r.1 then
      ({ success := false, message := "Failed to book slot. Not enough capacity." }, slot)
    else
      ({ success := true, message := "Slot booked successfully." }, r.2)

/-- `TimeSlotService.releaseSlot`, acting on the target bucket when it exists
(the service is a no-op when the bucket was never created). -/
def releaseSlot (slot : TimeSlot) (guestCount : Int) (bookingId : String) :
    TimeSlot :=
  releaseSeats slot guestCount bookingId

/-- **C2.** `bookSlot` conflicts exactly when the bucket is blocked or its
remaining capacity `capacity - booked` is below `guestCount`; on conflict the
bucket is unchanged, and on success `booked` grows by exactly `guestCount`
and the reservation id is added to the bucket's id set. -/
theorem bookSlot_conflict_iff (slot : TimeSlot) (guestCount : Int)
    (bookingId : String) :
    ((bookSlot slot guestCount bookingId).1.success = false ↔
      (slot.isBlocked = true ∨ slot.capacity - slot.booked < guestCount)) ∧
    ((bookSlot slot guestCount bookingId).1.success = false →
      (bookSlot slot guestCount bookingId).2 = slot) ∧
    ((bookSlot slot guestCount bookingId).1.success = true →
      (bookSlot slot guestCount bookingId).2.booked = slot.booked + guestCount ∧
      bookingId ∈ (bookSlot slot guestCount bookingId).2.bookingIds ∧
      (bookSlot slot guestCount bookingId).2.capacity = slot.capacity ∧
      (bookSlot slot guestCount bookingId).2.isBlocked = slot.isBlocked) := by
  by_cases hav : hasAvailability slot guestCount = true
  · have havail : slot.isBlocked = false ∧ slot.capacity - slot.booked ≥ guestCount := by
      simp only [hasAvailability] at hav
      by_cases hb : slot.isBlocked
      · simp [hb] at hav
      · exact ⟨by simp [hb], by simpa [hb] using hav⟩
    have hbook : bookSlot slot guestCount bookingId =
        ({ success := true, message := "Slot booked successfully." },
          { slot with
            booked := slot.booked + guestCount
            bookingIds := slot.bookingIds ++ [bookingId] }) := by
      simp [bookSlot, bookSeats, hav]
    rw [hbook]
    refine ⟨⟨fun h => by simp at h, fun h => ?_⟩, fun h => by simp at h, fun _ => ?_⟩
    · rcases h with h | h
      · rw [havail.1] at h; cases h
      · omega
    · exact ⟨rfl, by simp, rfl, rfl⟩
  · have hbook : bookSlot slot guestCount bookingId =
        ({ success := false, message := "Time slot is fully booked or blocked." }, slot) := by
      simp only [Bool.not_eq_true] at hav
      simp [bookSlot, hav]
    have hcond : slot.isBlocked = true ∨ slot.capacity - slot.booked < guestCount := by
      simp only [Bool.not_eq_true, hasAvailability] at hav
      by_cases hb : slot.isBlocked
      · exact Or.inl hb
      · simp only [hb, Bool.false_eq_true, if_false, decide_eq_false_iff_not, not_le] at hav
        exact Or.inr hav
    rw [hbook]
    exact ⟨⟨fun _ => hcond, fun _ => rfl⟩, fun _ => rfl, fun h => by simp at h⟩

/-- Witness for `bookSlot_conflict_iff` at a concrete fully-booked bucket:
the conflict direction of the equivalence at `capacity - booked = 0 < 4`. -/
theorem bookSlot_conflict_iff_witness :
    (bookSlot
      { capacity := 50, booked := 50, isBlocked := false, blockedBy := none,
        blockedReason := none, bookingIds := [] } 4 "r1").1.success = false :=
  (bookSlot_conflict_iff
    { capacity := 50, booked := 50, isBlocked := false, blockedBy := none,
      blockedReason := none, bookingIds := [] } 4 "r1").1.mpr
    (Or.inr (by decide))

/-! ## Day slots, availability and nearest-slot search (claim C4)

`TimeSlotService` operating parameters and helpers (src/unnamed/part_013). -/

/-- JS `String.prototype.split` with a one-character separator. -/
def splitOnChar (sep : Char) : List Char → List (List Char)
  | [] => [[]]
  | c :: rest =>
    let r := splitOnChar sep rest
    if c = sep then [] :: r
    else
      match r with
      | h :: t => (c :: h) :: t
      | [] => [[c]]

/-- JS `Number(..)` on the pieces produced by `split(':')`: digit strings
parse as naturals, the empty string parses as `0`, anything else is `NaN`
(modelled as `none`). -/
def jsNumber? (cs : List Char) : Option Nat :=
  if cs.isEmpty then some 0
  else if cs.all isDigitChar then some (parseDigits cs) else none

/-- `timeToMinutes`: `const [hours, minutes] = time.split(':')` takes the
first two pieces; a missing or non-numeric piece makes the JS result `NaN`,
modelled as `none`. -/
def timeToMinutes? (time : String) : Option Nat :=
  match splitOnChar ':' time.toList with
  | h :: m :: _ => do pure ((← jsNumber? h) * 60 + (← jsNumber? m))
  | _ => none

/-- `padStart(2, '0')` on a decimal numeral. -/
def pad2 (n : Nat) : String :=
  if n < 10 then "0" ++ toString n else toString n

/-- `minutesToTime`. -/
def minutesToTime (minutes : Nat) : String :=
  pad2 (minutes / 60) ++ ":" ++ pad2 (minutes % 60)

/-- Operating parameters of `TimeSlotService`. -/
def OPENING_TIME : String := "11:00"

def CLOSING_TIME : String := "22:00"

def SLOT_INTERVAL : Nat := 30

def DEFAULT_CAPACITY : Int := 50

/-- The loop of `generateDaySlots`: `for (m = start; m <= end; m += 30)`.
The extra `fuel` argument (structural recursion bound, passed as
`endM + 1 - m` so it never runs out before the loop condition fails) only
makes termination syntactic; the loop body and exit condition are the
source's. -/
def generateDaySlotsAux : Nat → Nat → Nat → List String
  | 0, _, _ => []
  | fuel + 1, m, endM =>
    if m ≤ endM then minutesToTime m :: generateDaySlotsAux fuel (m + SLOT_INTERVAL) endM
    else []

/-- `generateDaySlots`: every slot time of the operating window. -/
def generateDaySlots : List String :=
  let start := (timeToMinutes? OPENING_TIME).getD 0
  let endM := (timeToMinutes? CLOSING_TIME).getD 0
  generateDaySlotsAux (endM + 1 - start) start endM

/-- Evaluation of the generated operating window: 11:00 to 22:00 inclusive
in 30-minute steps. -/
theorem generateDaySlots_eq :
    generateDaySlots =
      ["11:00", "11:30", "12:00", "12:30", "13:00", "13:30", "14:00", "14:30",
       "15:00", "15:30", "16:00", "16:30", "17:00", "17:30", "18:00", "18:30",
       "19:00", "19:30", "20:00", "20:30", "21:00", "21:30", "22:00"] := by
  decide

/-- The minutes of a generated slot time.  All generated slots parse (see
`generateDaySlots_parse`), so the `getD 0` default is never exercised. -/
def slotMinutes (t : String) : Nat :=
  (timeToMinutes? t).getD 0

/-- The per-date bucket store: `TimeSlot.findOne({date, time})` keyed by
time for one fixed date; `none` is a bucket that was never created. -/
def DayState : Type := String → Option TimeSlot

/-- `getOrCreateSlot`: lazy materialisation with the defaults. -/
def getOrCreateSlot (day : DayState) (time : String) : TimeSlot :=
  (day time).getD freshSlot

/-- `TimeSlotService.checkAvailability`. -/
def checkAvailability (day : DayState) (time : String) (guestCount : Int) : Bool :=
  hasAvailability (getOrCreateSlot day time) guestCount

/-- The comparator key `Math.abs(timeToMinutes(a) - preferredMinutes)`. -/
def distTo (p : Nat) (t : String) : Nat :=
  ((slotMinutes t : Int) - (p : Int)).natAbs

/-- The collection loop of `findNearestAvailableSlots`: walk the sorted
slots, stop at `maxResults`, push the available ones. -/
def collectAvailable (avail : String → Bool) (maxResults : Nat) :
    List String → List String → List String
  | acc, [] => acc
  | acc, t :: ts =>
    if maxResults ≤ acc.length then acc
    else if avail t then collectAvailable avail maxResults (acc ++ [t]) ts
    else collectAvailable avail maxResults acc ts

/-- `TimeSlotService.findNearestAvailableSlots`.  The ES2019 stable
`Array.prototype.sort` with comparator `diffA - diffB` is modelled by
`List.insertionSort` on the key `distTo p` (any stable sorted-by-key
permutation is unique, so this is exact).  A preferred time that does not
parse would drive the JS comparator through `NaN`; this is modelled as
`none`. -/
def findNearestAvailableSlots (day : DayState) (preferredTime : String)
    (guestCount : Int) (maxResults : Nat) : Option (List String) :=
  (timeToMinutes? preferredTime).map fun p =>
    let sorted := List.insertionSort
      (fun a b => distTo p a ≤ distTo p b) generateDaySlots
    collectAvailable (fun t => checkAvailability day t guestCount)
      maxResults [] sorted

/-- Strict ordering of slot times by clock time. -/
def timeLt (a b : String) : Prop := slotMinutes a < slotMinutes b

instance : DecidableRel timeLt := fun a b =>
  inferInstanceAs (Decidable (slotMinutes a < slotMinutes b))

/-- The spec's candidate order: ascending absolute minute-distance from the
preferred time, ties broken by the earlier clock time. -/
def nearLex (p : Nat) (a b : String) : Prop :=
  distTo p a < distTo p b ∨ (distTo p a = distTo p b ∧ slotMinutes a < slotMinutes b)

instance (p : Nat) : DecidableRel (nearLex p) := fun a b =>
  decidable_of_iff
    (distTo p a < distTo p b ∨ (distTo p a = distTo p b ∧ slotMinutes a < slotMinutes b))
    Iff.rfl

theorem orderedInsert_nearLex (p : Nat) (x : String) (l : List String)
    (hl : l.Pairwise (nearLex p)) (hx : ∀ y ∈ l, slotMinutes x < slotMinutes y) :
    (List.orderedInsert (fun a b => distTo p a ≤ distTo p b) x l).Pairwise (nearLex p) := by
  induction l with
  | nil => simp [List.orderedInsert]
  | cons y ys ih =>
    rw [List.pairwise_cons] at hl
    obtain ⟨hy, hys⟩ := hl
    by_cases hr : distTo p x ≤ distTo p y
    · rw [List.orderedInsert, if_pos hr]
      refine List.pairwise_cons.mpr ⟨?_, List.pairwise_cons.mpr ⟨hy, hys⟩⟩
      intro z hz
      rcases List.mem_cons.mp hz with rfl | hz'
      · rcases lt_or_eq_of_le hr with h | h
        · exact Or.inl h
        · exact Or.inr ⟨h, hx z (List.mem_cons_self z ys)⟩
      · have hyz := hy z hz'
        have hdz : distTo p y ≤ distTo p z := by
          rcases hyz with h | ⟨h, _⟩
          · exact le_of_lt h
          · exact le_of_eq h
        rcases lt_or_eq_of_le (le_trans hr hdz) with h | h
        · exact Or.inl h
        · exact Or.inr ⟨h, hx z (List.mem_cons_of_mem y hz')⟩
    · rw [List.orderedInsert, if_neg hr]
      push_neg at hr
      refine List.pairwise_cons.mpr ⟨?_, ?_⟩
      · intro z hz
        rcases (List.mem_orderedInsert _).mp hz with rfl | hz'
        · exact Or.inl hr
        · exact hy z hz'
      · exact ih hys (fun z hz => hx z (List.mem_cons_of_mem y hz))

theorem insertionSort_nearLex (p : Nat) (l : List String)
    (hl : l.Pairwise timeLt) :
    (List.insertionSort (fun a b => distTo p a ≤ distTo p b) l).Pairwise (nearLex p) := by
  induction l with
  | nil => simp [List.insertionSort]
  | cons x xs ih =>
    rw [List.pairwise_cons] at hl
    obtain ⟨hx, hxs⟩ := hl
    rw [List.insertionSort]
    refine orderedInsert_nearLex p x _ (ih hxs) ?_
    intro y hy
    exact hx y ((List.perm_insertionSort _ xs).mem_iff.mp hy)

instance nearLex_isAntisymm (p : Nat) : IsAntisymm String (nearLex p) := by
  constructor
  intro a b hab hba
  exfalso
  rcases hab with h | ⟨h, h'⟩ <;> rcases hba with g | ⟨g, g'⟩ <;> omega

theorem collectAvailable_eq (avail : String → Bool) (maxResults : Nat) :
    ∀ (l acc : List String),
      collectAvailable avail maxResults acc l =
        if acc.length < maxResults then
          acc ++ (l.filter avail).take (maxResults - acc.length)
        else acc := by
  intro l
  induction l with
  | nil =>
    intro acc
    by_cases h : acc.length < maxResults
    · simp [collectAvailable, h]
    · simp [collectAvailable, h]
  | cons t ts ih =>
    intro acc
    by_cases hfull : maxResults ≤ acc.length
    · have h1 : ¬ acc.length < maxResults := by omega
      simp [collectAvailable, hfull, h1]
    · have h1 : acc.length < maxResults := by omega
      obtain ⟨k, hk⟩ : ∃ k, maxResults - acc.length = k + 1 :=
        ⟨maxResults - acc.length - 1, by omega⟩
      by_cases ha : avail t = true
      · have hstep : collectAvailable avail maxResults acc (t :: ts) =
            collectAvailable avail maxResults (acc ++ [t]) ts := by
          simp [collectAvailable, hfull, ha]
        rw [hstep, ih (acc ++ [t]), if_pos h1, List.filter_cons_of_pos ha, hk,
          List.take_succ_cons]
        have hlen : (acc ++ [t]).length = acc.length + 1 := by simp
        by_cases h2 : (acc ++ [t]).length < maxResults
        · rw [if_pos h2]
          have hk2 : maxResults - (acc ++ [t]).length = k := by
            rw [hlen]; omega
          rw [hk2]
          simp
        · rw [if_neg h2]
          have hk0 : k = 0 := by rw [hlen] at h2; omega
          subst hk0
          simp
      · have hstep : collectAvailable avail maxResults acc (t :: ts) =
            collectAvailable avail maxResults acc ts := by
          simp [collectAvailable, hfull, ha]
        rw [hstep, ih acc, if_pos h1, List.filter_cons_of_neg (by simpa using ha),
          if_pos h1]

theorem collectAvailable_nil_acc (avail : String → Bool) (maxResults : Nat)
    (l : List String) :
    collectAvailable avail maxResults [] l = (l.filter avail).take maxResults := by
  rw [collectAvailable_eq]
  by_cases h : 0 < maxResults
  · simp [h]
  · have hm : maxResults = 0 := by omega
    simp [hm]

/-- The concrete day of the spec's worked example: every bucket of the date
is fully booked except 18:30 and 20:00, which were never created. -/
def exampleDay : DayState := fun t =>
  if t = "18:30" ∨ t = "20:00" then none
  else some { capacity := 50, booked := 50, isBlocked := false,
              blockedBy := none, blockedReason := none, bookingIds := [] }

/-- **C4.** `findNearestAvailableSlots` returns the first `maxResults` slot
times of the 11:00–22:00 window (30-minute steps, endpoints included) that
have availability, taken in ascending absolute minute-distance from the
preferred time with ties broken by the earlier clock time: for every
candidate list `L` that enumerates the window in that order, the result is
`take maxResults` of the available ones of `L`; and on the concrete day
where 19:00 and 19:30 are full but 18:30 and 20:00 are open it returns
`["18:30", "20:00"]` in that order. -/
theorem findNearest_takes_nearest_available :
    (∀ (day : DayState) (preferredTime : String) (guestCount : Int)
        (maxResults : Nat) (p : Nat),
      timeToMinutes? preferredTime = some p →
      ∀ L : List String, L.Perm generateDaySlots → L.Pairwise (nearLex p) →
        findNearestAvailableSlots day preferredTime guestCount maxResults =
          some ((L.filter (fun t => checkAvailability day t guestCount)).take
            maxResults)) ∧
    findNearestAvailableSlots exampleDay "19:00" 4 3 = some ["18:30", "20:00"] := by
  constructor
  · intro day preferredTime guestCount maxResults p hp L hperm hlex
    have hwindow : generateDaySlots.Pairwise timeLt := by
      rw [generateDaySlots_eq]; decide
    simp only [findNearestAvailableSlots, hp, Option.map_some']
    rw [collectAvailable_nil_acc]
    have hS :
        List.insertionSort (fun a b => distTo p a ≤ distTo p b) generateDaySlots
          = L := by
      refine List.eq_of_perm_of_sorted ?_ ?_ hlex
      · exact (List.perm_insertionSort _ _).trans hperm.symm
      · exact insertionSort_nearLex p _ hwindow
    rw [hS]
  · simp only [findNearestAvailableSlots, generateDaySlots_eq]
    decide

/-- Witness for `findNearest_takes_nearest_available` at the worked example:
the candidate list enumerates the window by distance from 19:00 with ties to
the earlier time. -/
theorem findNearest_takes_nearest_available_witness :
    findNearestAvailableSlots exampleDay "19:00" 4 3 =
      some ((((["19:00", "18:30", "19:30", "18:00", "20:00", "17:30", "20:30",
        "17:00", "21:00", "16:30", "21:30", "16:00", "22:00", "15:30", "15:00",
        "14:30", "14:00", "13:30", "13:00", "12:30", "12:00", "11:30", "11:00"] :
          List String).filter (fun t => checkAvailability exampleDay t 4)).take 3)) :=
  findNearest_takes_nearest_available.1 exampleDay "19:00" 4 3 1140 (by decide)
    _ (by decide) (by decide)

/-- **C3 (amended): reserve-then-release restores `booked`** for every
schema-valid (`booked ≥ 0`) *unblocked* bucket, guest count within remaining
capacity and reservation id not yet present.  (On a blocked bucket the
reserve conflicts while the release still decrements, so the pair does not
restore `booked`; see `blocked_reserve_release_changes_booked`.) -/
theorem reserve_then_release_restores_booked (slot : TimeSlot) (guestCount : Int)
    (bookingId : String) (hblocked : slot.isBlocked = false)
    (hbooked : 0 ≤ slot.booked)
    (hroom : guestCount ≤ slot.capacity - slot.booked)
    (_hid : bookingId ∉ slot.bookingIds) :
    (releaseSlot (bookSlot slot guestCount bookingId).2 guestCount bookingId).booked
      = slot.booked := by
  have hav : hasAvailability slot guestCount = true := by
    simp [hasAvailability, hblocked]; omega
  simp only [bookSlot, bookSeats, hav, Bool.not_true, Bool.false_eq_true, if_false]
  simp only [releaseSlot, releaseSeats]
  omega

/-- Witness for `reserve_then_release_restores_booked` at a concrete bucket. -/
theorem reserve_then_release_restores_booked_witness :
    (freshSlot.isBlocked = false ∧ 0 ≤ freshSlot.booked ∧
      (4 : Int) ≤ freshSlot.capacity - freshSlot.booked ∧ "r1" ∉ freshSlot.bookingIds) ∧
    (releaseSlot (bookSlot freshSlot 4 "r1").2 4 "r1").booked = freshSlot.booked :=
  ⟨by decide,
   reserve_then_release_restores_booked freshSlot 4 "r1" (by decide) (by decide)
     (by decide) (by decide)⟩

/-- **C3 counterexample.**  The claim quantifies over *every* bucket, but on a
blocked bucket with `booked = 1`, `guestCount = 1 ≤ capacity - booked` and a
fresh reservation id, reserve conflicts (no change) and release still
decrements: the pair ends with `booked = 0 ≠ 1`. -/
theorem blocked_reserve_release_changes_booked :
    letI blockedBucket : TimeSlot :=
      { capacity := 50, booked := 1, isBlocked := true,
        blockedBy := some "admin", blockedReason := some "private event",
        bookingIds := [] }
    (1 : Int) ≤ blockedBucket.capacity - blockedBucket.booked ∧
    "r1" ∉ blockedBucket.bookingIds ∧
    (releaseSlot (bookSlot blockedBucket 1 "r1").2 1 "r1").booked ≠
      blockedBucket.booked := by
  decide

/-! ## Bilingual NLP: normalisation and the number lexicon
(`utils/bilingualNLP.ts`) -/

/-- ASCII `toLowerCase`. -/
def jsToLower (c : Char) : Char :=
  if 'A' ≤ c && c ≤ 'Z' then Char.ofNat (c.toNat + 32) else c

/-- `text.toLowerCase().trim()`, the normalisation every extractor applies. -/
def normalizeText (s : String) : List Char :=
  let lowered := s.toList.map jsToLower
  ((lowered.dropWhile isWsChar).reverse.dropWhile isWsChar).reverse

/-- The `hindiNumbers` lexicon in its source (insertion) order: Hindi number
words first, then English ones. -/
def hindiNumbers : List (String × Nat) :=
  [("ek", 1), ("do", 2), ("teen", 3), ("char", 4), ("paanch", 5),
   ("cheh", 6), ("saat", 7), ("aath", 8), ("nau", 9), ("das", 10),
   ("gyarah", 11), ("barah", 12), ("terah", 13), ("chaudah", 14), ("pandrah", 15),
   ("solah", 16), ("satrah", 17), ("atharah", 18), ("unnis", 19), ("bees", 20),
   ("one", 1), ("two", 2), ("three", 3), ("four", 4), ("five", 5),
   ("six", 6), ("seven", 7), ("eight", 8), ("nine", 9), ("ten", 10),
   ("eleven", 11), ("twelve", 12), ("thirteen", 13), ("fourteen", 14),
   ("fifteen", 15), ("sixteen", 16), ("seventeen", 17), ("eighteen", 18),
   ("nineteen", 19), ("twenty", 20)]

/-- The leftmost match of `/\d+/`. -/
def firstDigitRun : List Char → Option (List Char) :=
  scanFor fun s =>
    match matchRun1 isDigitChar s with
    | some (run, _) => some run
    | none => none

/-- First extraction rule: leftmost digit run, kept only inside 1–20
(out-of-range digits fall through to the later rules). -/
def digitRuleResult (normalized : List Char) : Option Nat :=
  match firstDigitRun normalized with
  | some run =>
    let num := parseDigits run
    if 1 ≤ num ∧ num ≤ 20 then some num else none
  | none => none

/-- Second extraction rule: first lexicon word that occurs with `\b`
boundaries. -/
def wordRuleResult (normalized : List Char) : Option Nat :=
  hindiNumbers.findSome? fun wn =>
    if containsWord wn.1.toList normalized then some wn.2 else none

/-- Try alternation branches in order, each continued by `k` (regex
alternation with backtracking into the continuation). -/
def tryAlts {α : Type} (alts : List (List Char)) (s : List Char)
    (k : List Char → Option α) : Option α :=
  alts.findSome? fun a => (matchPrefix a s).bind k

/-- `/(?:me|main|mai)\s+(?:and|aur)\s+(\d+)\s+(?:more|aur|log)?/` anchored at
the head of `s` (the optional trailing group cannot affect success). -/
def meAndMoreP1At (s : List Char) : Option (List Char) :=
  tryAlts [['m', 'e'], ['m', 'a', 'i', 'n'], ['m', 'a', 'i']] s fun r1 =>
  (matchWs1 r1).bind fun r2 =>
  tryAlts [['a', 'n', 'd'], ['a', 'u', 'r']] r2 fun r3 =>
  (matchWs1 r3).bind fun r4 =>
  (matchRun1 isDigitChar r4).bind fun dr =>
  (matchWs1 dr.2).map fun _ => dr.1

/-- `/(\d+)\s+(?:aur|and)\s+(?:me|main|mai)/` anchored at the head of `s`. -/
def meAndMoreP2At (s : List Char) : Option (List Char) :=
  (matchRun1 isDigitChar s).bind fun dr =>
  (matchWs1 dr.2).bind fun r2 =>
  tryAlts [['a', 'u', 'r'], ['a', 'n', 'd']] r2 fun r3 =>
  (matchWs1 r3).bind fun r4 =>
  tryAlts [['m', 'e'], ['m', 'a', 'i', 'n'], ['m', 'a', 'i']] r4 fun _ => some dr.1

/-- The body of the "me and N more" loop: on a pattern match, the captured
digits plus one, kept only inside 1–20 (otherwise the loop continues). -/
def meAndMoreFromPattern (found : Option (List Char)) : Option Nat :=
  match found with
  | some digits =>
    let num := parseDigits digits + 1
    if 1 ≤ num ∧ num ≤ 20 then some num else none
  | none => none

/-- Third extraction rule: the "me and N more" / "N and me" constructions,
yielding the captured digits plus one; an out-of-range value from the first
pattern falls through to the second. -/
def meAndMoreResult (normalized : List Char) : Option Nat :=
  match meAndMoreFromPattern (scanFor meAndMoreP1At normalized) with
  | some n => some n
  | none => meAndMoreFromPattern (scanFor meAndMoreP2At normalized)

/-- `extractBilingualNumber`: digit rule, then lexicon rule, then the
"me and N more" constructions; first success wins. -/
def extractBilingualNumber (text : String) : Option Nat :=
  match digitRuleResult (normalizeText text) with
  | some n => some n
  | none =>
    match wordRuleResult (normalizeText text) with
    | some n => some n
    | none => meAndMoreResult (normalizeText text)

theorem digitRuleResult_in_range (s : List Char) (n : Nat)
    (h : digitRuleResult s = some n) : 1 ≤ n ∧ n ≤ 20 := by
  unfold digitRuleResult at h
  cases hr : firstDigitRun s with
  | none => rw [hr] at h; cases h
  | some run =>
    rw [hr] at h
    simp only at h
    split at h
    · cases h; assumption
    · cases h

theorem wordRuleResult_in_range (s : List Char) (n : Nat)
    (h : wordRuleResult s = some n) : 1 ≤ n ∧ n ≤ 20 := by
  unfold wordRuleResult at h
  obtain ⟨wn, hmem, hwn⟩ := List.exists_of_findSome?_eq_some h
  have hv : wn.2 = n := by
    split at hwn
    · exact Option.some.inj hwn
    · cases hwn
  subst hv
  have hall : ∀ wn ∈ hindiNumbers, 1 ≤ wn.2 ∧ wn.2 ≤ 20 := by decide
  exact hall wn hmem

theorem meAndMoreFromPattern_in_range (found : Option (List Char)) (n : Nat)
    (h : meAndMoreFromPattern found = some n) : 1 ≤ n ∧ n ≤ 20 := by
  unfold meAndMoreFromPattern at h
  cases found with
  | none => cases h
  | some digits =>
    simp only at h
    split at h
    · cases h; assumption
    · cases h

theorem meAndMoreResult_in_range (s : List Char) (n : Nat)
    (h : meAndMoreResult s = some n) : 1 ≤ n ∧ n ≤ 20 := by
  unfold meAndMoreResult at h
  cases h1 : meAndMoreFromPattern (scanFor meAndMoreP1At s) with
  | some m =>
    rw [h1] at h
    cases h
    exact meAndMoreFromPattern_in_range _ _ h1
  | none =>
    rw [h1] at h
    simp only at h
    exact meAndMoreFromPattern_in_range _ _ h

/-- Every value `extractBilingualNumber` returns lies in 1–20: each rule
checks the bound before returning (out-of-range digits fall through rather
than clamp). -/
theorem extractBilingualNumber_in_range (text : String) (n : Nat)
    (h : extractBilingualNumber text = some n) : 1 ≤ n ∧ n ≤ 20 := by
  unfold extractBilingualNumber at h
  cases h1 : digitRuleResult (normalizeText text) with
  | some m =>
    rw [h1] at h
    cases h
    exact digitRuleResult_in_range _ _ h1
  | none =>
    rw [h1] at h
    simp only at h
    cases h2 : wordRuleResult (normalizeText text) with
    | some m =>
      rw [h2] at h
      cases h
      exact wordRuleResult_in_range _ _ h2
    | none =>
      rw [h2] at h
      simp only at h
      exact meAndMoreResult_in_range _ _ h

/-- **C9 (amended).** Guest-count extraction does enforce the 1–20 bound:
`extractBilingualNumber` never returns a value outside `[1, 20]` (each rule
bound-checks, with out-of-range digits falling through to later rules); the
downstream booking validation layer checks the same bound again. -/
theorem extraction_enforces_guest_bounds (text : String) (n : Nat)
    (h : extractBilingualNumber text = some n) : 1 ≤ n ∧ n ≤ 20 :=
  extractBilingualNumber_in_range text n h

/-- Witness for `extraction_enforces_guest_bounds` at "5 people". -/
theorem extraction_enforces_guest_bounds_witness :
    extractBilingualNumber "5 people" = some 5 ∧ (1 ≤ 5 ∧ 5 ≤ 20) :=
  ⟨by decide, extraction_enforces_guest_bounds "5 people" 5 (by decide)⟩

/-- **C9 counterexample** (the claim is existential, so its refutation is the
closed negation): no utterance makes `extractBilingualNumber` return a guest
count outside `[1, 20]`. -/
theorem no_out_of_range_extraction :
    ¬ ∃ (text : String) (n : Nat),
        extractBilingualNumber text = some n ∧ (n < 1 ∨ 20 < n) := by
  rintro ⟨text, n, h, hout⟩
  have := extractBilingualNumber_in_range text n h
  omega

/-- **C8 (amended).** On "me and N more" (and "N and me") with `1 ≤ N ≤ 20`
the digit rule fires first and extraction yields `N`, not `N + 1`; the
"me and N more" rule only decides the `N = 0` case, where it yields
`0 + 1 = 1`. -/
theorem me_and_n_more_yields_n :
    (∀ n : Nat, 1 ≤ n → n ≤ 20 →
      extractBilingualNumber ("me and " ++ Nat.repr n ++ " more") = some n) ∧
    (∀ n : Nat, 1 ≤ n → n ≤ 20 →
      extractBilingualNumber (Nat.repr n ++ " and me") = some n) ∧
    extractBilingualNumber "me and 0 more" = some 1 := by
  refine ⟨?_, ?_, by decide⟩
  · intro n h1 h2
    interval_cases n <;> decide
  · intro n h1 h2
    interval_cases n <;> decide

/-- Witness for `me_and_n_more_yields_n` at `N = 4`. -/
theorem me_and_n_more_yields_n_witness :
    extractBilingualNumber "me and 4 more" = some 4 :=
  me_and_n_more_yields_n.1 4 (by decide) (by decide)

/-- **C8 counterexample.** "me and 4 more" extracts `4` (the digit rule wins),
not the claimed `N + 1 = 5`. -/
theorem me_and_4_more_is_not_5 :
    extractBilingualNumber "me and 4 more" = some 4 ∧
      (some 4 : Option Nat) ≠ some 5 := by
  exact ⟨by decide, by decide⟩

/-! ## Bilingual date extraction (claim C7)

JS `Date` values are modelled at day granularity as an integer count of days
since 1970-01-01 (a Thursday), so `getDay()` is `(d + 4) mod 7` and
`setDate(getDate() + k)` is `d + k`.  The impure `new Date()` becomes an
explicit `today` parameter. -/

/-- `Date.prototype.getDay` (0 = Sunday … 6 = Saturday). -/
def dayOfWeek (d : Int) : Int := (d + 4) % 7

/-- Civil calendar to day count (days since 1970-01-01), for
`new Date(year, month, day)`; `m` is 1–12, overflowing `d` rolls over just
as JS normalises it. -/
def daysFromCivil (y m d : Int) : Int :=
  let y' := if m ≤ 2 then y - 1 else y
  let era := y'.fdiv 400
  let yoe := y' - era * 400
  let mp := if m > 2 then m - 3 else m + 9
  let doy := (153 * mp + 2).fdiv 5 + d - 1
  let doe := yoe * 365 + yoe.fdiv 4 - yoe.fdiv 100 + doy
  era * 146097 + doe - 719468

/-- Day count back to the civil calendar `(year, month 1–12, day 1–31)`,
for `getFullYear` and `formatDate`. -/
def civilFromDays (z : Int) : Int × Int × Int :=
  let z' := z + 719468
  let era := z'.fdiv 146097
  let doe := z' - era * 146097
  let yoe := (doe - doe.fdiv 1460 + doe.fdiv 36524 - doe.fdiv 146096).fdiv 365
  let y := yoe + era * 400
  let doy := doe - (365 * yoe + yoe.fdiv 4 - yoe.fdiv 100)
  let mp := (5 * doy + 2).fdiv 153
  let d := doy - (153 * mp + 2).fdiv 5 + 1
  let m := if mp < 10 then mp + 3 else mp - 9
  (if m ≤ 2 then y + 1 else y, m, d)

/-- `new Date(year, monthIndex, day)` with JS's normalisation: years 0–99
mean 1900–1999, out-of-range month indices and days roll over. -/
def jsDateYMD (y monthIndex day : Int) : Int :=
  let y' := if 0 ≤ y ∧ y ≤ 99 then 1900 + y else y
  let ym := y' * 12 + monthIndex
  daysFromCivil (ym.fdiv 12) (ym.emod 12 + 1) 1 + (day - 1)

/-- `getFullYear()` of a day count. -/
def jsGetFullYear (d : Int) : Int := (civilFromDays d).1

/-- ASCII `toLowerCase` on a whole string. -/
def jsLowerString (s : String) : String :=
  String.mk (s.toList.map jsToLower)

/-- `Array.prototype.indexOf` (`-1` when absent). -/
def jsIndexOf (l : List String) (s : String) : Int :=
  match l.findIdx? (fun x => x = s) with
  | some i => (i : Int)
  | none => -1

/-- The `days` array of `getNextDayOfWeek`. -/
def daysOfWeekList : List String :=
  ["sunday", "monday", "tuesday", "wednesday", "thursday", "friday", "saturday"]

/-- `getNextDayOfWeek(dayName, nextWeek)`: next occurrence of the named
weekday; adds 7 days once if the target is today/past **or** the `nextWeek`
qualifier is set. -/
def getNextDayOfWeek (dayName : String) (nextWeek : Bool) (today : Int) : Int :=
  let targetDay := jsIndexOf daysOfWeekList (jsLowerString dayName)
  if targetDay = -1 then today
  else
    let currentDay := dayOfWeek today
    let d0 := targetDay - currentDay
    let daysUntilTarget := if d0 ≤ 0 ∨ nextWeek = true then d0 + 7 else d0
    today + daysUntilTarget

/-- The `hindiDates` table in source (insertion) order: relative-day offsets
(`Sum.inl`), then weekday names in Hindi and English (`Sum.inr`). -/
def hindiDates : List (String × (Nat ⊕ String)) :=
  [("aaj", .inl 0), ("today", .inl 0), ("kal", .inl 1), ("tomorrow", .inl 1),
   ("parso", .inl 2), ("narso", .inl 2),
   ("somvar", .inr "monday"), ("somwar", .inr "monday"),
   ("mangalvar", .inr "tuesday"), ("mangalwar", .inr "tuesday"),
   ("budhvar", .inr "wednesday"), ("budhwar", .inr "wednesday"),
   ("guruvar", .inr "thursday"), ("guruwar", .inr "thursday"),
   ("shukravar", .inr "friday"), ("shukrawar", .inr "friday"),
   ("shanivar", .inr "saturday"), ("shaniwar", .inr "saturday"),
   ("ravivar", .inr "sunday"), ("raviwar", .inr "sunday"),
   ("monday", .inr "monday"), ("tuesday", .inr "tuesday"),
   ("wednesday", .inr "wednesday"), ("thursday", .inr "thursday"),
   ("friday", .inr "friday"), ("saturday", .inr "saturday"),
   ("sunday", .inr "sunday")]

/-- First loop of `extractBilingualDate`: relative-day keywords only
(`typeof offset === 'number'`), `\b`-bounded. -/
def relativeDateResult (normalized : List Char) : Option Nat :=
  hindiDates.findSome? fun e =>
    match e.2 with
    | .inl offset =>
      if containsWord e.1.toList normalized then some offset else none
    | .inr _ => none

/-- Second loop of `extractBilingualDate`: weekday keywords only
(`typeof dayName === 'string'`), `\b`-bounded. -/
def dayNameResult (normalized : List Char) : Option String :=
  hindiDates.findSome? fun e =>
    match e.2 with
    | .inl _ => none
    | .inr dayName =>
      if containsWord e.1.toList normalized then some dayName else none

/-- The `/(?:next|agle|agla)/` qualifier test (plain substring search). -/
def hasNextQualifier (normalized : List Char) : Bool :=
  containsSub "next".toList normalized || containsSub "agle".toList normalized ||
    containsSub "agla".toList normalized

/-- A match of one of the three absolute-date patterns. -/
inductive DateMatch where
  | slash (d m y : Nat)
  | dayMonth (d : Nat) (month : String)
  | monthDay (month : String) (d : Nat)
  deriving Repr, DecidableEq

/-- The month-name alternation of the absolute-date patterns, in source
order. -/
def monthNames : List String :=
  ["january", "february", "march", "april", "may", "june", "july", "august",
   "september", "october", "november", "december"]

/-- `\d{1,2}` with regex backtracking: try two digits, fall back to one. -/
def tryDigits12 {α : Type} (s : List Char) (k : Nat → List Char → Option α) :
    Option α :=
  match s with
  | [] => none
  | [c1] => if isDigitChar c1 then k (digitVal c1) [] else none
  | c1 :: c2 :: rest =>
    if isDigitChar c1 then
      if isDigitChar c2 then
        match k (parseDigits [c1, c2]) rest with
        | some v => some v
        | none => k (digitVal c1) (c2 :: rest)
      else k (digitVal c1) (c2 :: rest)
    else none

/-- `\d{4}` (exactly four digits). -/
def match4Digits (s : List Char) : Option (Nat × List Char) :=
  match s with
  | a :: b :: c :: d :: rest =>
    if isDigitChar a && isDigitChar b && isDigitChar c && isDigitChar d then
      some (parseDigits [a, b, c, d], rest)
    else none
  | _ => none

/-- `/(\d{1,2})\/(\d{1,2})\/(\d{4})/` anchored at the head. -/
def slashPatternAt (s : List Char) : Option DateMatch :=
  tryDigits12 s fun d r1 =>
  (matchPrefix ['/'] r1).bind fun r2 =>
  tryDigits12 r2 fun m r3 =>
  (matchPrefix ['/'] r3).bind fun r4 =>
  (match4Digits r4).map fun yr => DateMatch.slash d m yr.1

/-- `/(\d{1,2})\s+(january|…|december)/` anchored at the head. -/
def dayMonthPatternAt (s : List Char) : Option DateMatch :=
  tryDigits12 s fun d r1 =>
  (matchWs1 r1).bind fun r2 =>
  monthNames.findSome? fun mon =>
    (matchPrefix mon.toList r2).map fun _ => DateMatch.dayMonth d mon

/-- `/(january|…|december)\s+(\d{1,2})/` anchored at the head. -/
def monthDayPatternAt (s : List Char) : Option DateMatch :=
  monthNames.findSome? fun mon =>
    (matchPrefix mon.toList s).bind fun r1 =>
    (matchWs1 r1).bind fun r2 =>
    tryDigits12 r2 fun d _ => some (DateMatch.monthDay mon d)

/-- The `months` dictionary of `parseDateFromMatch` (name to 0-based
index). -/
def monthIndex (mon : String) : Int := jsIndexOf monthNames mon

/-- `parseDateFromMatch`: `DD/MM/YYYY` builds the date directly, the
month-name forms default the year to the calling year. -/
def parseDateFromMatch (today : Int) : DateMatch → Option Int
  | .slash d m y => some (jsDateYMD (y : Int) ((m : Int) - 1) (d : Int))
  | .dayMonth d mon => some (jsDateYMD (jsGetFullYear today) (monthIndex mon) (d : Int))
  | .monthDay mon d => some (jsDateYMD (jsGetFullYear today) (monthIndex mon) (d : Int))

/-- The `datePatterns` loop: first pattern that matches anywhere decides. -/
def datePatternsResult (normalized : List Char) : Option DateMatch :=
  match scanFor slashPatternAt normalized with
  | some m => some m
  | none =>
    match scanFor dayMonthPatternAt normalized with
    | some m => some m
    | none => scanFor monthDayPatternAt normalized

/-- `extractBilingualDate`: relative-day lexicon, then weekday lexicon (with
the "next" qualifier), then the absolute-date patterns. -/
def extractBilingualDate (today : Int) (text : String) : Option Int :=
  match relativeDateResult (normalizeText text) with
  | some offset => some (today + (offset : Int))
  | none =>
    match dayNameResult (normalizeText text) with
    | some dayName =>
      some (getNextDayOfWeek dayName (hasNextQualifier (normalizeText text)) today)
    | none =>
      match datePatternsResult (normalizeText text) with
      | some m => parseDateFromMatch today m
      | none => none

theorem getNextDayOfWeek_next_eq (dayName : String) (today : Int)
    (h : jsIndexOf daysOfWeekList (jsLowerString dayName) ≠ -1) :
    getNextDayOfWeek dayName true today =
      today + (jsIndexOf daysOfWeekList (jsLowerString dayName)
        - dayOfWeek today + 7) := by
  unfold getNextDayOfWeek
  rw [if_neg h]
  simp only [or_true, if_true]

theorem dayOfWeek_bounds (today : Int) : 0 ≤ dayOfWeek today ∧ dayOfWeek today ≤ 6 := by
  unfold dayOfWeek
  constructor
  · exact Int.emod_nonneg _ (by norm_num)
  · have := Int.emod_lt_of_pos (today + 4) (b := 7) (by norm_num)
    omega

/-- **C7 (amended).** On "next X" for a weekday name X, `extractBilingualDate`
returns the date `(index of X) − (calling weekday) + 7` days out.  That is at
least 7 days exactly when the named weekday's index is at least the calling
day's — when the named day already passed earlier in the calling week,
"next X" coincides with plain X and lands less than 7 days out. -/
theorem next_weekday_offset (name : String) (hname : name ∈ daysOfWeekList)
    (today : Int) :
    extractBilingualDate today ("next " ++ name) =
      some (today + (jsIndexOf daysOfWeekList name - dayOfWeek today + 7)) ∧
    (today + 7 ≤ today + (jsIndexOf daysOfWeekList name - dayOfWeek today + 7) ↔
      dayOfWeek today ≤ jsIndexOf daysOfWeekList name) := by
  constructor
  · have h1 : extractBilingualDate today ("next " ++ name) =
        some (getNextDayOfWeek name true today) := by
      fin_cases hname <;> rfl
    have h2 : jsLowerString name = name := by
      fin_cases hname <;> rfl
    have h3 : jsIndexOf daysOfWeekList (jsLowerString name) ≠ -1 := by
      fin_cases hname <;> decide
    rw [h1, getNextDayOfWeek_next_eq name today h3, h2]
  · omega

/-- Witness for `next_weekday_offset`: "next friday" called on a Thursday
(day 0, 1970-01-01) lands 8 days out. -/
theorem next_weekday_offset_witness :
    extractBilingualDate 0 "next friday" = some 8 ∧ (8 : Int) - 0 ≥ 7 := by
  have h := next_weekday_offset "friday" (by decide) 0
  refine ⟨?_, by norm_num⟩
  rw [show ("next friday" : String) = "next " ++ "friday" from rfl, h.1]
  decide

/-- **C7 counterexample.** Calling on a Saturday (day 2, 1970-01-03,
`getDay() = 6`), "next friday" resolves only 6 days out (day 8, the very
next Friday), violating the claimed ≥ 7 days for every calling weekday. -/
theorem next_friday_on_saturday_within_week :
    extractBilingualDate 2 "next friday" = some 8 ∧ dayOfWeek 2 = 6 ∧
      ¬ (2 + 7 ≤ (8 : Int)) := by
  refine ⟨?_, by decide, by norm_num⟩
  decide

/-! ## Bilingual time, cuisine and special-request extraction
(`utils/bilingualNLP.ts`; used opaquely by the slot manager) -/

/-- The `'AM' | 'PM'` tags of `hindiTimeOfDay`. -/
inductive Meridiem where
  | am
  | pm
  deriving Repr, DecidableEq

/-- The `hindiTimeOfDay` table in source order. -/
def hindiTimeOfDay : List (String × Meridiem) :=
  [("subah", .am), ("savera", .am), ("dopahar", .pm), ("shaam", .pm),
   ("sham", .pm), ("raat", .pm),
   ("morning", .am), ("afternoon", .pm), ("evening", .pm), ("night", .pm)]

/-- `convertTo24Hour`. -/
def convertTo24Hour (hour : Nat) (meridiem : Meridiem) : Nat :=
  if meridiem = .pm ∧ hour < 12 then hour + 12
  else if meridiem = .am ∧ hour = 12 then 0
  else hour

/-- `HH:00` for a 24-hour hour. -/
def fmtHour00 (h : Nat) : String := pad2 h ++ ":00"

/-- `/(\d{1,2})\s*baje/` anchored at the head. -/
def bajeAt (s : List Char) : Option Nat :=
  tryDigits12 s fun hour r1 =>
    (matchPrefix "baje".toList (matchWs0 r1)).map fun _ => hour

/-- First time-of-day keyword contained (plain `includes`) in the text. -/
def timeOfDayContext (normalized : List Char) : Option Meridiem :=
  hindiTimeOfDay.findSome? fun km =>
    if containsSub km.1.toList normalized then some km.2 else none

/-- Pattern 1 of `extractBilingualTime`: "7 baje" with optional time-of-day
context, defaulting hours 5–11 to PM (dinner-service default). -/
def bajeResult (normalized : List Char) : Option String :=
  match scanFor bajeAt normalized with
  | some hour =>
    match timeOfDayContext normalized with
    | some meridiem => some (fmtHour00 (convertTo24Hour hour meridiem))
    | none =>
      if 5 ≤ hour ∧ hour ≤ 11 then some (fmtHour00 (hour + 12))
      else some (fmtHour00 hour)
  | none => none

/-- `` `${keyword}\s*(\d{1,2})` `` anchored at the head. -/
def kwdThenHourAt (kw : List Char) (s : List Char) : Option Nat :=
  (matchPrefix kw s).bind fun r1 =>
    tryDigits12 (matchWs0 r1) fun h _ => some h

/-- `` `(\d{1,2})\s*${keyword}` `` anchored at the head. -/
def hourThenKwdAt (kw : List Char) (s : List Char) : Option Nat :=
  tryDigits12 s fun h r1 =>
    (matchPrefix kw (matchWs0 r1)).map fun _ => h

/-- Pattern 2 of `extractBilingualTime`: "shaam 7" / "7 shaam" per keyword,
forward pattern first. -/
def keywordTimeResult (normalized : List Char) : Option String :=
  hindiTimeOfDay.findSome? fun km =>
    match scanFor (kwdThenHourAt km.1.toList) normalized with
    | some h => some (fmtHour00 (convertTo24Hour h km.2))
    | none =>
      (scanFor (hourThenKwdAt km.1.toList) normalized).map fun h =>
        fmtHour00 (convertTo24Hour h km.2)

/-- `\d{2}` (exactly two digits). -/
def match2Digits (s : List Char) : Option (Nat × List Char) :=
  match s with
  | a :: b :: rest =>
    if isDigitChar a && isDigitChar b then some (parseDigits [a, b], rest)
    else none
  | _ => none

/-- `(am|pm)?` after `\s*`. -/
def optionalMeridiem (s : List Char) : Option Meridiem :=
  let r := matchWs0 s
  if (matchPrefix "am".toList r).isSome then some .am
  else if (matchPrefix "pm".toList r).isSome then some .pm
  else none

/-- `/(\d{1,2}):(\d{2})\s*(am|pm)?/` anchored at the head. -/
def hmPatternAt (s : List Char) : Option (Nat × Nat × Option Meridiem) :=
  tryDigits12 s fun hours r1 =>
  (matchPrefix [':'] r1).bind fun r2 =>
  (match2Digits r2).map fun mr => (hours, mr.1, optionalMeridiem mr.2)

/-- `/(?:at|around|about)?\s*(\d{1,2})\s*(am|pm)/` anchored at the head: try
the optional prefix alternatives, then the empty option. -/
def atHourMeridiemAt (s : List Char) : Option (Nat × Meridiem) :=
  let rest (r : List Char) : Option (Nat × Meridiem) :=
    tryDigits12 (matchWs0 r) fun h r1 =>
      let r2 := matchWs0 r1
      if (matchPrefix "am".toList r2).isSome then some (h, .am)
      else if (matchPrefix "pm".toList r2).isSome then some (h, .pm)
      else none
  match tryAlts ["at".toList, "around".toList, "about".toList] s rest with
  | some v => some v
  | none => rest s

/-- The conversion and validity check shared by pattern 3's branches; `none`
(out-of-range hour or minute) lets the loop continue. -/
def standardTimeValue (hours minutes : Nat) (meridiem : Option Meridiem) :
    Option String :=
  let h1 := if meridiem = some .pm ∧ hours < 12 then hours + 12 else hours
  let h2 := if meridiem = some .am ∧ h1 = 12 then 0 else h1
  if h2 < 24 ∧ minutes < 60 then some (pad2 h2 ++ ":" ++ pad2 minutes)
  else none

/-- Pattern 3 of `extractBilingualTime`: the two standard formats in order. -/
def standardTimeResult (normalized : List Char) : Option String :=
  let first :=
    match scanFor hmPatternAt normalized with
    | some (h, m, mer) => standardTimeValue h m mer
    | none => none
  match first with
  | some v => some v
  | none =>
    match scanFor atHourMeridiemAt normalized with
    | some (h, mer) => standardTimeValue h 0 (some mer)
    | none => none

/-- `/\b(\d{1,2})\b/` anchored at the head given the previous character. -/
def bareNumberAt (prev : Option Char) (s : List Char) : Option Nat :=
  if (match prev with | none => true | some c => !isWordChar c) then
    tryDigits12 s fun h r =>
      match r with
      | [] => some h
      | c :: _ => if !isWordChar c then some h else none
  else none

/-- Leftmost `\b(\d{1,2})\b`. -/
def firstBareNumber : Option Char → List Char → Option Nat
  | prev, s =>
    match bareNumberAt prev s with
    | some h => some h
    | none =>
      match s with
      | [] => none
      | c :: rest => firstBareNumber (some c) rest

/-- Pattern 4 of `extractBilingualTime`: a bare 1–2 digit number, with
keyword context or the 5–11 PM dinner default; other hours yield nothing. -/
def bareHourResult (normalized : List Char) : Option String :=
  match firstBareNumber none normalized with
  | some hour =>
    match timeOfDayContext normalized with
    | some meridiem => some (fmtHour00 (convertTo24Hour hour meridiem))
    | none =>
      if 5 ≤ hour ∧ hour ≤ 11 then some (fmtHour00 (hour + 12))
      else none
  | none => none

/-- `extractBilingualTime`: the four pattern groups in source order. -/
def extractBilingualTime (text : String) : Option String :=
  match bajeResult (normalizeText text) with
  | some v => some v
  | none =>
    match keywordTimeResult (normalizeText text) with
    | some v => some v
    | none =>
      match standardTimeResult (normalizeText text) with
      | some v => some v
      | none => bareHourResult (normalizeText text)

/-- The `cuisineMap` table in source order. -/
def cuisineMap : List (String × String) :=
  [("italian", "Italian"), ("italvi", "Italian"), ("pasta", "Italian"),
   ("pizza", "Italian"),
   ("chinese", "Chinese"), ("chini", "Chinese"), ("cheeni", "Chinese"),
   ("china", "Chinese"), ("noodles", "Chinese"),
   ("indian", "Indian"), ("bharatiya", "Indian"), ("bharatiye", "Indian"),
   ("hindustani", "Indian"), ("desi", "Indian"), ("curry", "Indian"),
   ("tandoori", "Indian"), ("biryani", "Indian"),
   ("japanese", "Japanese"), ("japani", "Japanese"), ("sushi", "Japanese"),
   ("ramen", "Japanese"),
   ("mexican", "Mexican"), ("mexicano", "Mexican"), ("tacos", "Mexican"),
   ("burrito", "Mexican"),
   ("thai", "Thai"), ("thailand", "Thai"),
   ("french", "French"), ("fransisi", "French"),
   ("mediterranean", "Mediterranean"), ("greek", "Greek"),
   ("american", "American"), ("burger", "American"),
   ("korean", "Korean"), ("koreai", "Korean"),
   ("lebanese", "Lebanese"), ("arabic", "Lebanese"), ("arabi", "Lebanese"),
   ("turkish", "Turkish"), ("turki", "Turkish")]

/-- Dictionary lookup `cuisineMap[keyword]`. -/
def cuisineLookup (w : List Char) : Option String :=
  cuisineMap.findSome? fun kv => if kv.1.toList = w then some kv.2 else none

/-- `/(\w+)\s+(?:khana|food)/` anchored at the head. -/
def wordFoodAt (s : List Char) : Option (List Char) :=
  (matchRun1 isWordChar s).bind fun wr =>
  (matchWs1 wr.2).bind fun r2 =>
  tryAlts ["khana".toList, "food".toList] r2 fun _ => some wr.1

/-- `/(?:khana|food)\s+(\w+)/` anchored at the head. -/
def foodWordAt (s : List Char) : Option (List Char) :=
  tryAlts ["khana".toList, "food".toList] s fun r1 =>
  (matchWs1 r1).bind fun r2 =>
  (matchRun1 isWordChar r2).map fun wr => wr.1

/-- `extractBilingualCuisine`: `\b`-bounded lexicon match, then the
"X khana" / "khana X" patterns resolved against the same lexicon (a matched
word that is not in the lexicon lets the loop continue). -/
def extractBilingualCuisine (text : String) : Option String :=
  match (cuisineMap.findSome? fun kv =>
      if containsWord kv.1.toList (normalizeText text) then some kv.2 else none) with
  | some c => some c
  | none =>
    match (scanFor wordFoodAt (normalizeText text)).bind cuisineLookup with
    | some c => some c
    | none => (scanFor foodWordAt (normalizeText text)).bind cuisineLookup

/-- The `specialRequestKeywords` table in source order. -/
def specialRequestKeywords : List (String × String) :=
  [("birthday", "birthday celebration"), ("janmdin", "birthday celebration"),
   ("janamdin", "birthday celebration"), ("bday", "birthday celebration"),
   ("anniversary", "anniversary celebration"),
   ("saalgirah", "anniversary celebration"),
   ("salgirah", "anniversary celebration"),
   ("kids", "kids present"), ("children", "kids present"),
   ("bachche", "kids present"), ("bacche", "kids present"),
   ("bacha", "kids present"),
   ("allergy", "food allergy"), ("allergic", "food allergy"),
   ("elerji", "food allergy"),
   ("vegetarian", "vegetarian"), ("veg", "vegetarian"),
   ("shakahari", "vegetarian"), ("vegan", "vegan"), ("gluten", "gluten-free"),
   ("wheelchair", "wheelchair access"), ("disabled", "wheelchair access"),
   ("viklang", "wheelchair access"), ("highchair", "highchair needed"),
   ("baby", "highchair needed")]

/-- `extractBilingualSpecialRequests`: collect the canonical tag of every
`\b`-bounded keyword hit, de-duplicated in first-hit order. -/
def extractBilingualSpecialRequests (text : String) : List String :=
  specialRequestKeywords.foldl
    (fun detected kv =>
      if containsWord kv.1.toList (normalizeText text) then
        if detected.contains kv.2 then detected else detected ++ [kv.2]
      else detected)
    []

/-- `formatDate`: `YYYY-MM-DD`. -/
def formatDate (d : Int) : String :=
  let c := civilFromDays d
  toString c.1 ++ "-" ++ pad2 c.2.1.toNat ++ "-" ++ pad2 c.2.2.toNat

/-! ## The dialogue state machine (`services/slotManager`,
src/unnamed/part_012; claims C5, C6, C10) -/

/-- `ConversationState` (types/admin.ts), in its declared linear order. -/
inductive ConversationState where
  | greeting
  | collecting_name
  | collecting_guests
  | collecting_date
  | collecting_time
  | collecting_cuisine
  | fetching_weather
  | suggesting_seating
  | confirming
  | completed
  deriving Repr, DecidableEq

/-- The index of a state in the fixed linear order. -/
def stateIndex : ConversationState → Nat
  | .greeting => 0
  | .collecting_name => 1
  | .collecting_guests => 2
  | .collecting_date => 3
  | .collecting_time => 4
  | .collecting_cuisine => 5
  | .fetching_weather => 6
  | .suggesting_seating => 7
  | .confirming => 8
  | .completed => 9

/-- `ConversationSlots`: all fields optional; `none` is JS `undefined`. -/
structure ConversationSlots where
  customerName : Option String
  numberOfGuests : Option Nat
  bookingDate : Option String
  bookingTime : Option String
  cuisinePreference : Option String
  specialRequests : Option String
  deriving Repr, DecidableEq

/-- JS truthiness of an optional string (`undefined` and `""` are falsy). -/
def strFilled : Option String → Bool
  | none => false
  | some s => !(s = "")

/-- JS truthiness of an optional number (`undefined` and `0` are falsy). -/
def numFilled : Option Nat → Bool
  | none => false
  | some n => !(n = 0)

/-- The if-chain of `determineNextState` over the five truthiness flags. -/
def nextStateFromFlags (hasName hasGuests hasDate hasTime hasCuisine : Bool)
    (currentState : ConversationState) : ConversationState :=
  if !hasName then .collecting_name
  else if !hasGuests then .collecting_guests
  else if !hasDate then .collecting_date
  else if !hasTime then .collecting_time
  else if !hasCuisine then .collecting_cuisine
  else if hasName && hasGuests && hasDate && hasTime && hasCuisine then
    .fetching_weather
  else currentState

/-- `determineNextState`: the first state in the linear order whose owned
field is empty, `fetching_weather` once all five are filled; the
`currentState` fallback is the source's unreachable last line, and
`_slotWasExtracted` is the source's unused third parameter. -/
def determineNextState (slots : ConversationSlots)
    (currentState : ConversationState) (_slotWasExtracted : Bool) :
    ConversationState :=
  nextStateFromFlags (strFilled slots.customerName)
    (numFilled slots.numberOfGuests) (strFilled slots.bookingDate)
    (strFilled slots.bookingTime) (strFilled slots.cuisinePreference)
    currentState

/-- The self-introduction phrases of `extractName`'s first pattern, in
alternation order (`i'm` spelt with an apostrophe character). -/
def introPhrases : List (List Char) :=
  ["my name is".toList, ['i', apos, 'm'], "i am".toList, "this is".toList,
   "call me".toList]

/-- `/(?:my name is|i'm|i am|this is|call me)\s+([a-z]+(?:\s+[a-z]+)?)/`
anchored at the head: the capture keeps the matched separator run. -/
def introNameAt (s : List Char) : Option (List Char) :=
  tryAlts introPhrases s fun r1 =>
  (matchWs1 r1).bind fun r2 =>
  (matchRun1 isLowerAlpha r2).map fun w1r =>
    match matchRun1 isWsChar w1r.2 with
    | some sepr =>
      match matchRun1 isLowerAlpha sepr.2 with
      | some w2r => w1r.1 ++ sepr.1 ++ w2r.1
      | none => w1r.1
    | none => w1r.1

/-- `/^([a-z]+(?:\s+[a-z]+)?)$/`: the whole message is one or two lower-case
words. -/
def wholeNameMatch (s : List Char) : Option (List Char) :=
  match matchRun1 isLowerAlpha s with
  | none => none
  | some w1r =>
    match w1r.2 with
    | [] => some w1r.1
    | _ =>
      match matchRun1 isWsChar w1r.2 with
      | none => none
      | some sepr =>
        match matchRun1 isLowerAlpha sepr.2 with
        | none => none
        | some w2r =>
          if w2r.2 = [] then some (w1r.1 ++ sepr.1 ++ w2r.1) else none

/-- ASCII `toUpperCase` of one character. -/
def jsToUpper (c : Char) : Char :=
  if 'a' ≤ c && c ≤ 'z' then Char.ofNat (c.toNat - 32) else c

/-- `word.charAt(0).toUpperCase() + word.slice(1)`. -/
def capFirst : List Char → List Char
  | [] => []
  | c :: rest => jsToUpper c :: rest

/-- `` match.split(' ').map(capitalize).join(' ') ``. -/
def joinSpace : List (List Char) → List Char
  | [] => []
  | [w] => w
  | w :: ws => w ++ ' ' :: joinSpace ws

/-- Capitalise the first letter of each space-separated word. -/
def capitalizeWords (cs : List Char) : List Char :=
  joinSpace ((splitOnChar ' ' cs).map capFirst)

/-- `extractName`: only in the greeting / name-collection states; the
self-introduction pattern first, then a bare 1–2 word name. -/
def extractName (message : List Char) (state : ConversationState) :
    Option String :=
  if state ≠ .collecting_name ∧ state ≠ .greeting then none
  else
    match scanFor introNameAt message with
    | some captured => some (String.mk (capitalizeWords captured))
    | none =>
      match wholeNameMatch message with
      | some captured => some (String.mk (capitalizeWords captured))
      | none => none

/-- Step 1 of `extractSlots`: customer name. -/
def applyName (message : List Char) (state : ConversationState)
    (s : ConversationSlots) : ConversationSlots :=
  if !strFilled s.customerName &&
      (state = .greeting || state = .collecting_name) then
    match extractName message state with
    | some nm => { s with customerName := some nm }
    | none => s
  else s

/-- Step 2 of `extractSlots`: number of guests. -/
def applyGuests (message : List Char) (state : ConversationState)
    (s : ConversationSlots) : ConversationSlots :=
  if !numFilled s.numberOfGuests && (state = .collecting_guests) then
    match extractBilingualNumber (String.mk message) with
    | some n => { s with numberOfGuests := some n }
    | none => s
  else s

/-- Step 3 of `extractSlots`: booking date (formatted `YYYY-MM-DD`). -/
def applyDate (today : Int) (message : List Char) (state : ConversationState)
    (s : ConversationSlots) : ConversationSlots :=
  if !strFilled s.bookingDate && (state = .collecting_date) then
    match (extractBilingualDate today (String.mk message)).map formatDate with
    | some d => { s with bookingDate := some d }
    | none => s
  else s

/-- Step 4 of `extractSlots`: booking time. -/
def applyTime (message : List Char) (state : ConversationState)
    (s : ConversationSlots) : ConversationSlots :=
  if !strFilled s.bookingTime && (state = .collecting_time) then
    match extractBilingualTime (String.mk message) with
    | some t => { s with bookingTime := some t }
    | none => s
  else s

/-- Step 5 of `extractSlots`: cuisine preference. -/
def applyCuisine (message : List Char) (state : ConversationState)
    (s : ConversationSlots) : ConversationSlots :=
  if !strFilled s.cuisinePreference && (state = .collecting_cuisine) then
    match extractBilingualCuisine (String.mk message) with
    | some c => { s with cuisinePreference := some c }
    | none => s
  else s

/-- `requests.join(', ')`. -/
def joinCommaSpace : List String → String
  | [] => ""
  | [s] => s
  | s :: rest => s ++ ", " ++ joinCommaSpace rest

/-- Step 6 of `extractSlots`: special requests, attempted in every state. -/
def applySpecial (message : List Char) (s : ConversationSlots) :
    ConversationSlots :=
  let requests := extractBilingualSpecialRequests (String.mk message)
  let m := if requests.length > 0 then some (joinCommaSpace requests) else none
  if strFilled m && !strFilled s.specialRequests then
    { s with specialRequests := m }
  else s

/-- `SlotExtractionResult`. -/
structure SlotExtractionResult where
  slots : ConversationSlots
  state : ConversationState
  deriving Repr, DecidableEq

/-- `extractSlots`: normalise the message, attempt extraction only for the
field owned by the current state (plus opportunistic special requests), then
recompute the state from the filled slots. -/
def extractSlots (today : Int) (message : String)
    (currentSlots : ConversationSlots) (currentState : ConversationState) :
    SlotExtractionResult :=
  let normalizedMessage := normalizeText message
  let afterFive :=
    applyCuisine normalizedMessage currentState
      (applyTime normalizedMessage currentState
        (applyDate today normalizedMessage currentState
          (applyGuests normalizedMessage currentState
            (applyName normalizedMessage currentState currentSlots))))
  let slotWasExtracted := decide (afterFive ≠ currentSlots)
  let updatedSlots := applySpecial normalizedMessage afterFive
  { slots := updatedSlots
    state := determineNextState updatedSlots currentState slotWasExtracted }

/-- The `requiredSlots` array. -/
def requiredSlots : List String :=
  ["customerName", "numberOfGuests", "bookingDate", "bookingTime",
   "cuisinePreference"]

/-- `slots[slotName]` truthiness for the required-slot names. -/
def slotValueTruthy (slots : ConversationSlots) : String → Bool
  | "customerName" => strFilled slots.customerName
  | "numberOfGuests" => numFilled slots.numberOfGuests
  | "bookingDate" => strFilled slots.bookingDate
  | "bookingTime" => strFilled slots.bookingTime
  | "cuisinePreference" => strFilled slots.cuisinePreference
  | "specialRequests" => strFilled slots.specialRequests
  | _ => false

/-- `getMissingSlots`. -/
def getMissingSlots (slots : ConversationSlots) : List String :=
  requiredSlots.filter fun name => !slotValueTruthy slots name

/-! ## State-machine monotonicity (claim C6) -/

/-- Fieldwise growth of the five required-slot truthiness flags. -/
def slotsLe (s s' : ConversationSlots) : Prop :=
  (strFilled s.customerName = true → strFilled s'.customerName = true) ∧
  (numFilled s.numberOfGuests = true → numFilled s'.numberOfGuests = true) ∧
  (strFilled s.bookingDate = true → strFilled s'.bookingDate = true) ∧
  (strFilled s.bookingTime = true → strFilled s'.bookingTime = true) ∧
  (strFilled s.cuisinePreference = true → strFilled s'.cuisinePreference = true)

theorem slotsLe_refl (s : ConversationSlots) : slotsLe s s :=
  ⟨id, id, id, id, id⟩

theorem slotsLe_trans {s t u : ConversationSlots} (h1 : slotsLe s t)
    (h2 : slotsLe t u) : slotsLe s u :=
  ⟨fun h => h2.1 (h1.1 h),
   fun h => h2.2.1 (h1.2.1 h),
   fun h => h2.2.2.1 (h1.2.2.1 h),
   fun h => h2.2.2.2.1 (h1.2.2.2.1 h),
   fun h => h2.2.2.2.2 (h1.2.2.2.2 h)⟩

theorem applyName_slotsLe (m : List Char) (st : ConversationState)
    (s : ConversationSlots) : slotsLe s (applyName m st s) := by
  unfold applyName
  by_cases hguard : (!strFilled s.customerName &&
      (st = ConversationState.greeting || st = ConversationState.collecting_name)) = true
  · rw [if_pos hguard]
    cases hx : extractName m st with
    | none => exact slotsLe_refl s
    | some nm =>
      refine ⟨fun h => ?_, id, id, id, id⟩
      exfalso
      simp only [Bool.and_eq_true, Bool.not_eq_true'] at hguard
      rw [hguard.1] at h
      cases h
  · rw [if_neg hguard]
    exact slotsLe_refl s

theorem applyGuests_slotsLe (m : List Char) (st : ConversationState)
    (s : ConversationSlots) : slotsLe s (applyGuests m st s) := by
  unfold applyGuests
  by_cases hguard : (!numFilled s.numberOfGuests &&
      (st = ConversationState.collecting_guests)) = true
  · rw [if_pos hguard]
    cases hx : extractBilingualNumber (String.mk m) with
    | none => exact slotsLe_refl s
    | some n =>
      refine ⟨id, fun h => ?_, id, id, id⟩
      exfalso
      simp only [Bool.and_eq_true, Bool.not_eq_true'] at hguard
      rw [hguard.1] at h
      cases h
  · rw [if_neg hguard]
    exact slotsLe_refl s

theorem applyDate_slotsLe (today : Int) (m : List Char)
    (st : ConversationState) (s : ConversationSlots) :
    slotsLe s (applyDate today m st s) := by
  unfold applyDate
  by_cases hguard : (!strFilled s.bookingDate &&
      (st = ConversationState.collecting_date)) = true
  · rw [if_pos hguard]
    cases hx : (extractBilingualDate today (String.mk m)).map formatDate with
    | none => exact slotsLe_refl s
    | some d =>
      refine ⟨id, id, fun h => ?_, id, id⟩
      exfalso
      simp only [Bool.and_eq_true, Bool.not_eq_true'] at hguard
      rw [hguard.1] at h
      cases h
  · rw [if_neg hguard]
    exact slotsLe_refl s

theorem applyTime_slotsLe (m : List Char) (st : ConversationState)
    (s : ConversationSlots) : slotsLe s (applyTime m st s) := by
  unfold applyTime
  by_cases hguard : (!strFilled s.bookingTime &&
      (st = ConversationState.collecting_time)) = true
  · rw [if_pos hguard]
    cases hx : extractBilingualTime (String.mk m) with
    | none => exact slotsLe_refl s
    | some t =>
      refine ⟨id, id, id, fun h => ?_, id⟩
      exfalso
      simp only [Bool.and_eq_true, Bool.not_eq_true'] at hguard
      rw [hguard.1] at h
      cases h
  · rw [if_neg hguard]
    exact slotsLe_refl s

theorem applyCuisine_slotsLe (m : List Char) (st : ConversationState)
    (s : ConversationSlots) : slotsLe s (applyCuisine m st s) := by
  unfold applyCuisine
  by_cases hguard : (!strFilled s.cuisinePreference &&
      (st = ConversationState.collecting_cuisine)) = true
  · rw [if_pos hguard]
    cases hx : extractBilingualCuisine (String.mk m) with
    | none => exact slotsLe_refl s
    | some c =>
      refine ⟨id, id, id, id, fun h => ?_⟩
      exfalso
      simp only [Bool.and_eq_true, Bool.not_eq_true'] at hguard
      rw [hguard.1] at h
      cases h
  · rw [if_neg hguard]
    exact slotsLe_refl s

theorem applySpecial_slotsLe (m : List Char) (s : ConversationSlots) :
    slotsLe s (applySpecial m s) := by
  simp only [applySpecial]
  split <;> split <;> exact ⟨id, id, id, id, id⟩

theorem extractSlots_slotsLe (today : Int) (message : String)
    (slots : ConversationSlots) (st : ConversationState) :
    slotsLe slots (extractSlots today message slots st).slots := by
  unfold extractSlots
  refine slotsLe_trans (slotsLe_trans (slotsLe_trans (slotsLe_trans
    (slotsLe_trans (applyName_slotsLe _ st slots) (applyGuests_slotsLe _ st _))
    (applyDate_slotsLe today _ st _)) (applyTime_slotsLe _ st _))
    (applyCuisine_slotsLe _ st _)) (applySpecial_slotsLe _ _)

theorem nextStateFromFlags_index_mono :
    ∀ (a a' b b' c c' d d' e e' : Bool) (st : ConversationState),
      (a = true → a' = true) → (b = true → b' = true) →
      (c = true → c' = true) → (d = true → d' = true) →
      (e = true → e' = true) →
      stateIndex (nextStateFromFlags a b c d e st) ≤
        stateIndex (nextStateFromFlags a' b' c' d' e' st) := by
  intro a a' b b' c c' d d' e e' st
  revert a a' b b' c c' d d' e e'
  cases st <;> decide

theorem getMissingSlots_nil_iff (s : ConversationSlots) :
    getMissingSlots s = [] ↔
      (strFilled s.customerName = true ∧ numFilled s.numberOfGuests = true ∧
       strFilled s.bookingDate = true ∧ strFilled s.bookingTime = true ∧
       strFilled s.cuisinePreference = true) := by
  cases h1 : strFilled s.customerName <;>
    cases h2 : numFilled s.numberOfGuests <;>
    cases h3 : strFilled s.bookingDate <;>
    cases h4 : strFilled s.bookingTime <;>
    cases h5 : strFilled s.cuisinePreference <;>
    simp [getMissingSlots, requiredSlots, List.filter, slotValueTruthy,
      h1, h2, h3, h4, h5]

/-- A fully filled slot set (used by the concrete instances). -/
def fullSlots : ConversationSlots :=
  { customerName := some "Alex", numberOfGuests := some 4,
    bookingDate := some "2025-01-01", bookingTime := some "19:00",
    cuisinePreference := some "Italian", specialRequests := none }

/-- **C6 (amended).** `extractSlots` recomputes the state purely from the
filled slots, so (a) over any turn whose current state is at most the
recomputed first-missing-field state for its own slot set — which covers
every state the slot-filling path itself produces — the state index never
decreases; but (b) the recomputation sends a fully filled session in
`confirming` or `completed` back to `fetching_weather` on *any* message, so
the claimed no-regression from `confirming`/`completed` fails. -/
theorem extractSlots_state_monotone :
    (∀ (today : Int) (message : String) (slots : ConversationSlots)
        (state : ConversationState),
      stateIndex state ≤ stateIndex (determineNextState slots state false) →
      stateIndex state ≤
        stateIndex (extractSlots today message slots state).state) ∧
    (∀ (today : Int) (message : String) (slots : ConversationSlots),
      getMissingSlots slots = [] →
      (extractSlots today message slots .confirming).state = .fetching_weather ∧
      (extractSlots today message slots .completed).state = .fetching_weather) := by
  have hstate : ∀ (today : Int) (message : String) (slots : ConversationSlots)
      (state : ConversationState),
      (extractSlots today message slots state).state =
        determineNextState (extractSlots today message slots state).slots
          state false := by
    intro today message slots state
    rfl
  constructor
  · intro today message slots state h
    refine le_trans h ?_
    rw [hstate]
    have hle := extractSlots_slotsLe today message slots state
    exact nextStateFromFlags_index_mono _ _ _ _ _ _ _ _ _ _ state
      hle.1 hle.2.1 hle.2.2.1 hle.2.2.2.1 hle.2.2.2.2
  · intro today message slots hmissing
    obtain ⟨h1, h2, h3, h4, h5⟩ := (getMissingSlots_nil_iff slots).mp hmissing
    have key : ∀ st : ConversationState,
        (extractSlots today message slots st).state =
          nextStateFromFlags true true true true true st := by
      intro st
      rw [hstate]
      have hle := extractSlots_slotsLe today message slots st
      unfold determineNextState
      rw [hle.1 h1, hle.2.1 h2, hle.2.2.1 h3, hle.2.2.2.1 h4, hle.2.2.2.2 h5]
    exact ⟨by rw [key]; rfl, by rw [key]; rfl⟩

/-- Witness for `extractSlots_state_monotone`: a consistent
`collecting_guests` session does not regress on the message "4". -/
theorem extractSlots_state_monotone_witness :
    stateIndex ConversationState.collecting_guests ≤
      stateIndex (extractSlots 0 "4"
        { customerName := some "Alex", numberOfGuests := none,
          bookingDate := none, bookingTime := none, cuisinePreference := none,
          specialRequests := none } ConversationState.collecting_guests).state :=
  extractSlots_state_monotone.1 0 "4"
    { customerName := some "Alex", numberOfGuests := none,
      bookingDate := none, bookingTime := none, cuisinePreference := none,
      specialRequests := none } ConversationState.collecting_guests (by decide)

/-- **C6 counterexample.** A session in `confirming` with every field filled
is moved back to `fetching_weather` (index 6 < 8) by the unremarkable
message "hello" — `extractSlots` does regress from `confirming`. -/
theorem confirming_regresses_on_any_message :
    (extractSlots 0 "hello" fullSlots ConversationState.confirming).state =
      ConversationState.fetching_weather ∧
    stateIndex (extractSlots 0 "hello" fullSlots
        ConversationState.confirming).state <
      stateIndex ConversationState.confirming := by
  decide

/-! ## The allocation-conflict revert path (claim C5) -/

theorem getMissingSlots_time_only (s : ConversationSlots)
    (h1 : strFilled s.customerName = true)
    (h2 : numFilled s.numberOfGuests = true)
    (h3 : strFilled s.bookingDate = true)
    (h4 : strFilled s.bookingTime = false)
    (h5 : strFilled s.cuisinePreference = true) :
    getMissingSlots s = ["bookingTime"] := by
  simp [getMissingSlots, requiredSlots, List.filter, slotValueTruthy,
    h1, h2, h3, h4, h5]

/-- Modelled from the spec: the repository contains no caller of
`TimeSlotService.bookSlot` from the dialogue flow — the conflict-revert step
of §4.3 ("on allocation conflict the state machine reverts to
`collecting_time` with the missing-field set forced back to `{time}`, and
the caller is offered the nearest alternatives") is missing from the source.
This turn is modelled from those words on top of the source's `bookSlot`,
`determineNextState`, `getMissingSlots` and `findNearestAvailableSlots`: a
fully filled session attempts the reservation; on success it completes, on
conflict the time field is cleared, the state recomputed, and the nearest
alternatives fetched. -/
def reservationTurn (day : DayState) (slots : ConversationSlots)
    (bookingId : String) :
    ConversationState × ConversationSlots × List String :=
  match slots.bookingTime, slots.numberOfGuests with
  | some t, some g =>
    let bucket := getOrCreateSlot day t
    if (bookSlot bucket (g : Int) bookingId).1.success then
      (.completed, slots, [])
    else
      let slots' := { slots with bookingTime := none }
      (determineNextState slots' .confirming false, slots',
        (findNearestAvailableSlots day t (g : Int) 3).getD [])
  | _, _ => (.confirming, slots, [])

/-- **C5.** When a fully filled session's reservation attempt hits an
allocation conflict, the next dialogue state is `collecting_time` and the
missing-field set becomes exactly `{bookingTime}` (so the caller is
re-prompted for a time, with nearest alternatives offered). -/
theorem conflict_reverts_to_collecting_time (day : DayState)
    (slots : ConversationSlots) (bookingId : String) (t : String) (g : Nat)
    (ht : slots.bookingTime = some t) (hg : slots.numberOfGuests = some g)
    (hfull : getMissingSlots slots = [])
    (hconflict : hasAvailability (getOrCreateSlot day t) (g : Int) = false) :
    (reservationTurn day slots bookingId).1 = .collecting_time ∧
    getMissingSlots (reservationTurn day slots bookingId).2.1 =
      ["bookingTime"] := by
  obtain ⟨h1, h2, h3, h4, h5⟩ := (getMissingSlots_nil_iff slots).mp hfull
  have hfail : (bookSlot (getOrCreateSlot day t) (g : Int) bookingId).1.success
      = false := by
    unfold bookSlot
    rw [hconflict]
    rfl
  have hturn : reservationTurn day slots bookingId =
      ({ slots with bookingTime := none } |> fun slots' =>
        (determineNextState slots' .confirming false, slots',
          (findNearestAvailableSlots day t (g : Int) 3).getD [])) := by
    unfold reservationTurn
    rw [ht, hg]
    simp only [hfail, Bool.false_eq_true, if_false]
  rw [hturn]
  constructor
  · show determineNextState { slots with bookingTime := none }
      .confirming false = .collecting_time
    unfold determineNextState
    show nextStateFromFlags (strFilled slots.customerName)
      (numFilled slots.numberOfGuests) (strFilled slots.bookingDate)
      (strFilled none) (strFilled slots.cuisinePreference) .confirming
        = .collecting_time
    rw [h1, h2, h3, h5]
    rfl
  · exact getMissingSlots_time_only _ h1 h2 h3 rfl h5

/-- Witness for `conflict_reverts_to_collecting_time`: a fully booked 19:00
bucket conflicts with the filled example session. -/
theorem conflict_reverts_to_collecting_time_witness :
    (reservationTurn exampleDay fullSlots "r1").1 =
      ConversationState.collecting_time ∧
    getMissingSlots (reservationTurn exampleDay fullSlots "r1").2.1 =
      ["bookingTime"] :=
  conflict_reverts_to_collecting_time exampleDay fullSlots "r1" "19:00" 4
    rfl rfl (by decide) (by decide)

/-! ## Name extraction on one- and two-word replies (claim C10) -/

theorem matchPrefix_eq_append :
    ∀ (p s r : List Char), matchPrefix p s = some r → s = p ++ r := by
  intro p
  induction p with
  | nil =>
    intro s r h
    simp only [matchPrefix] at h
    cases h
    rfl
  | cons a p' ih =>
    intro s r h
    cases s with
    | nil => cases h
    | cons c s' =>
      simp only [matchPrefix] at h
      split at h
      · rename_i hac
        rw [List.cons_append, ← hac, ← ih s' r h]
      · cases h

theorem alpha_not_ws (c : Char) (h : isLowerAlpha c = true) :
    isWsChar c = false := by
  cases hw : isWsChar c
  · rfl
  · exfalso
    simp only [isWsChar, Bool.or_eq_true, decide_eq_true_eq] at hw
    rcases hw with ((((rfl | rfl) | rfl) | rfl) | rfl) | rfl <;>
      simp [isLowerAlpha] at h

theorem alpha_ne_space (c : Char) (h : isLowerAlpha c = true) : c ≠ ' ' := by
  intro hc
  subst hc
  simp [isLowerAlpha] at h

theorem space_notMem_of_alpha (l : List Char)
    (h : ∀ c ∈ l, isLowerAlpha c = true) : ' ' ∉ l := by
  intro hmem
  exact alpha_ne_space ' ' (h ' ' hmem) rfl

theorem align_space :
    ∀ (a u x y : List Char), (∀ c ∈ a, isLowerAlpha c = true) →
      (∀ c ∈ u, isLowerAlpha c = true) →
      a ++ ' ' :: x = u ++ ' ' :: y → a = u ∧ x = y := by
  intro a
  induction a with
  | nil =>
    intro u x y _ hu heq
    cases u with
    | nil =>
      simp only [List.nil_append] at heq
      exact ⟨rfl, by injection heq⟩
    | cons d u' =>
      simp only [List.nil_append, List.cons_append] at heq
      injection heq with h1 _
      exact absurd h1.symm (alpha_ne_space d (hu d (List.mem_cons_self d u')))
  | cons c a' ih =>
    intro u x y ha hu heq
    cases u with
    | nil =>
      simp only [List.nil_append, List.cons_append] at heq
      injection heq with h1 _
      exact absurd h1 (alpha_ne_space c (ha c (List.mem_cons_self c a')))
    | cons d u' =>
      simp only [List.cons_append] at heq
      injection heq with h1 h2
      obtain ⟨hau, hxy⟩ := ih u' x y
        (fun z hz => ha z (List.mem_cons_of_mem c hz))
        (fun z hz => hu z (List.mem_cons_of_mem d hz)) h2
      exact ⟨by rw [h1, hau], hxy⟩

theorem count_space_alpha (l : List Char)
    (h : ∀ c ∈ l, isLowerAlpha c = true) : l.count ' ' = 0 :=
  List.count_eq_zero.mpr (space_notMem_of_alpha l h)

/-- The continuation of `introNameAt` fails on an all-alphabetic (or empty)
remainder: the required `\s+` never matches. -/
theorem introCont_alpha_none (r : List Char)
    (hr : ∀ c ∈ r, isLowerAlpha c = true) :
    matchWs1 r = none := by
  cases r with
  | nil => rfl
  | cons c rest =>
    simp only [matchWs1]
    rw [alpha_not_ws c (hr c (List.mem_cons_self c rest))]
    rfl

theorem introNameAt_alpha_none (s : List Char)
    (hs : ∀ c ∈ s, isLowerAlpha c = true) : introNameAt s = none := by
  unfold introNameAt tryAlts
  rw [List.findSome?_eq_none_iff]
  intro p hp
  cases hmp : matchPrefix p s with
  | none => rfl
  | some r =>
    exfalso
    have hsplit := matchPrefix_eq_append p s r hmp
    have hchar : ∃ c ∈ p, isLowerAlpha c = false := by
      fin_cases hp
      · exact ⟨' ', by decide, by decide⟩
      · exact ⟨apos, by decide, by decide⟩
      · exact ⟨' ', by decide, by decide⟩
      · exact ⟨' ', by decide, by decide⟩
      · exact ⟨' ', by decide, by decide⟩
    obtain ⟨c, hc, hcf⟩ := hchar
    have : isLowerAlpha c = true := by
      refine hs c ?_
      rw [hsplit]
      exact List.mem_append_left _ hc
    rw [this] at hcf
    cases hcf

/-- No self-introduction phrase can match at any alignment inside a
`word-space-word` message: the two-space phrase runs out of spaces, the
apostrophe phrase needs an apostrophe, and the one-space phrases would need
whitespace after the phrase where only letters remain. -/
theorem introNameAt_mixed_none (u w2 : List Char)
    (hu : ∀ c ∈ u, isLowerAlpha c = true)
    (hw2 : ∀ c ∈ w2, isLowerAlpha c = true) :
    introNameAt (u ++ ' ' :: w2) = none := by
  have honespace : ∀ (a b : List Char),
      (∀ c ∈ a, isLowerAlpha c = true) → (∀ c ∈ b, isLowerAlpha c = true) →
      ∀ r, (u ++ ' ' :: w2) = (a ++ ' ' :: b) ++ r → matchWs1 r = none := by
    intro a b ha hb r hsplit
    have hassoc : (a ++ ' ' :: b) ++ r = a ++ ' ' :: (b ++ r) := by simp
    rw [hassoc] at hsplit
    obtain ⟨_, hbr⟩ := align_space a u (b ++ r) w2 ha hu hsplit.symm
    refine introCont_alpha_none r fun c hc => ?_
    exact hw2 c (hbr ▸ List.mem_append_right b hc)
  unfold introNameAt tryAlts
  rw [List.findSome?_eq_none_iff]
  intro p hp
  fin_cases hp
  · -- "my name is": two spaces cannot fit the single space of the message
    cases hmp : matchPrefix "my name is".toList (u ++ ' ' :: w2) with
    | none => rfl
    | some r =>
      exfalso
      have hsplit := matchPrefix_eq_append _ _ _ hmp
      have hcount : (u ++ ' ' :: w2).count ' ' = 1 := by
        rw [List.count_append, count_space_alpha u hu, List.count_cons_self,
          count_space_alpha w2 hw2]
      rw [hsplit, List.count_append,
        show ("my name is".toList).count ' ' = 2 from by decide] at hcount
      omega
  · -- "i'm": the message has no apostrophe
    cases hmp : matchPrefix ['i', apos, 'm'] (u ++ ' ' :: w2) with
    | none => rfl
    | some r =>
      exfalso
      have hsplit := matchPrefix_eq_append _ _ _ hmp
      have hmem : apos ∈ u ++ ' ' :: w2 := by
        rw [hsplit]
        exact List.mem_append_left _ (by decide)
      rcases List.mem_append.mp hmem with h | h
      · exact absurd (hu apos h) (by decide)
      · rcases List.mem_cons.mp h with h' | h'
        · exact absurd h' (by decide)
        · exact absurd (hw2 apos h') (by decide)
  · -- "i am"
    cases hmp : matchPrefix "i am".toList (u ++ ' ' :: w2) with
    | none => rfl
    | some r =>
      rw [Option.some_bind]
      rw [honespace ['i'] ['a', 'm'] (by decide) (by decide) r
        (matchPrefix_eq_append _ _ _ hmp)]
      rfl
  · -- "this is"
    cases hmp : matchPrefix "this is".toList (u ++ ' ' :: w2) with
    | none => rfl
    | some r =>
      rw [Option.some_bind]
      rw [honespace "this".toList "is".toList (by decide) (by decide) r
        (matchPrefix_eq_append _ _ _ hmp)]
      rfl
  · -- "call me"
    cases hmp : matchPrefix "call me".toList (u ++ ' ' :: w2) with
    | none => rfl
    | some r =>
      rw [Option.some_bind]
      rw [honespace "call".toList "me".toList (by decide) (by decide) r
        (matchPrefix_eq_append _ _ _ hmp)]
      rfl

/-- No phrase starts with a space, so no phrase matches at the separator. -/
theorem introNameAt_space_head (w : List Char) :
    introNameAt (' ' :: w) = none := by
  unfold introNameAt tryAlts
  rw [List.findSome?_eq_none_iff]
  intro p hp
  fin_cases hp <;> rfl

theorem scanFor_introNameAt_alpha (s : List Char)
    (hs : ∀ c ∈ s, isLowerAlpha c = true) :
    scanFor introNameAt s = none := by
  induction s with
  | nil => rfl
  | cons c rest ih =>
    rw [scanFor, introNameAt_alpha_none (c :: rest) hs]
    exact ih fun x hx => hs x (List.mem_cons_of_mem c hx)

theorem scanFor_introNameAt_mixed (u w2 : List Char)
    (hu : ∀ c ∈ u, isLowerAlpha c = true)
    (hw2 : ∀ c ∈ w2, isLowerAlpha c = true) :
    scanFor introNameAt (u ++ ' ' :: w2) = none := by
  induction u with
  | nil =>
    rw [List.nil_append, scanFor, introNameAt_space_head w2]
    exact scanFor_introNameAt_alpha w2 hw2
  | cons c u' ih =>
    rw [List.cons_append, scanFor,
      show (c :: (u' ++ ' ' :: w2)) = (c :: u') ++ ' ' :: w2 from rfl,
      introNameAt_mixed_none (c :: u') w2 hu hw2]
    exact ih fun x hx => hu x (List.mem_cons_of_mem c hx)

theorem takeWhile_all (p : Char → Bool) :
    ∀ (l : List Char), (∀ x ∈ l, p x = true) →
      l.takeWhile p = l ∧ l.dropWhile p = [] := by
  intro l
  induction l with
  | nil => intro _; exact ⟨rfl, rfl⟩
  | cons c rest ih =>
    intro h
    have hc := h c (List.mem_cons_self c rest)
    have ⟨ht, hd⟩ := ih fun x hx => h x (List.mem_cons_of_mem c hx)
    rw [List.takeWhile_cons, List.dropWhile_cons, hc]
    exact ⟨by simp [ht], by simp [hd]⟩

theorem run_split (p : Char → Bool) :
    ∀ (l : List Char) (c : Char) (r : List Char),
      (∀ x ∈ l, p x = true) → p c = false →
      (l ++ c :: r).takeWhile p = l ∧ (l ++ c :: r).dropWhile p = c :: r := by
  intro l
  induction l with
  | nil =>
    intro c r _ hc
    rw [List.nil_append, List.takeWhile_cons, List.dropWhile_cons, hc]
    exact ⟨rfl, rfl⟩
  | cons a l' ih =>
    intro c r hl hc
    have ha := hl a (List.mem_cons_self a l')
    have ⟨ht, hd⟩ := ih c r (fun x hx => hl x (List.mem_cons_of_mem a hx)) hc
    rw [List.cons_append, List.takeWhile_cons, List.dropWhile_cons, ha]
    exact ⟨by simp [ht], by simp [hd]⟩

theorem wholeNameMatch_single (w : List Char)
    (hw : ∀ c ∈ w, isLowerAlpha c = true) (hne : w ≠ []) :
    wholeNameMatch w = some w := by
  obtain ⟨ht, hd⟩ := takeWhile_all isLowerAlpha w hw
  have hempty : w.isEmpty = false := by
    cases w with
    | nil => exact absurd rfl hne
    | cons c rest => rfl
  unfold wholeNameMatch matchRun1
  dsimp only
  rw [ht, hd, hempty]
  rfl

theorem wholeNameMatch_double (w1 w2 : List Char)
    (h1 : ∀ c ∈ w1, isLowerAlpha c = true)
    (h2 : ∀ c ∈ w2, isLowerAlpha c = true)
    (hne1 : w1 ≠ []) (hne2 : w2 ≠ []) :
    wholeNameMatch (w1 ++ ' ' :: w2) = some (w1 ++ ' ' :: w2) := by
  obtain ⟨c2, w2', rfl⟩ : ∃ c2 w2', w2 = c2 :: w2' := by
    cases w2 with
    | nil => exact absurd rfl hne2
    | cons c2 w2' => exact ⟨c2, w2', rfl⟩
  obtain ⟨ht1, hd1⟩ := run_split isLowerAlpha w1 ' ' (c2 :: w2') h1 (by decide)
  have hwsrun : (' ' :: c2 :: w2').takeWhile isWsChar = [' '] ∧
      (' ' :: c2 :: w2').dropWhile isWsChar = c2 :: w2' := by
    have := run_split isWsChar [' '] c2 w2'
      (fun x hx => by rcases List.mem_singleton.mp hx with rfl; rfl)
      (alpha_not_ws c2 (h2 c2 (List.mem_cons_self c2 w2')))
    simpa using this
  obtain ⟨ht2, hd2⟩ := takeWhile_all isLowerAlpha (c2 :: w2') h2
  have hne1' : w1.isEmpty = false := by
    cases w1 with
    | nil => exact absurd rfl hne1
    | cons _ _ => rfl
  unfold wholeNameMatch matchRun1
  dsimp only
  simp only [ht1, hd1, hne1', hwsrun.1, hwsrun.2, ht2, hd2,
    Bool.false_eq_true, if_false, List.isEmpty_cons, eq_self_iff_true, if_true,
    List.append_assoc, List.singleton_append]

theorem splitOnChar_no_sep (sep : Char) :
    ∀ (l : List Char), sep ∉ l → splitOnChar sep l = [l] := by
  intro l
  induction l with
  | nil => intro _; rfl
  | cons c rest ih =>
    intro h
    have hc : ¬ c = sep := fun hc => h (hc ▸ List.mem_cons_self c rest)
    rw [splitOnChar]
    simp only [if_neg hc]
    rw [ih fun hm => h (List.mem_cons_of_mem c hm)]

theorem splitOnChar_sep_append (sep : Char) :
    ∀ (l r : List Char), sep ∉ l →
      splitOnChar sep (l ++ sep :: r) = l :: splitOnChar sep r := by
  intro l
  induction l with
  | nil =>
    intro r _
    rw [List.nil_append, splitOnChar]
    simp
  | cons c l' ih =>
    intro r h
    have hc : ¬ c = sep := fun hc => h (hc ▸ List.mem_cons_self c l')
    rw [List.cons_append, splitOnChar]
    simp only [if_neg hc]
    rw [ih r fun hm => h (List.mem_cons_of_mem c hm)]

theorem capitalizeWords_single (w : List Char) (h : ' ' ∉ w) :
    capitalizeWords w = capFirst w := by
  unfold capitalizeWords
  rw [splitOnChar_no_sep ' ' w h]
  rfl

theorem capitalizeWords_double (w1 w2 : List Char) (h1 : ' ' ∉ w1)
    (h2 : ' ' ∉ w2) :
    capitalizeWords (w1 ++ ' ' :: w2) = capFirst w1 ++ ' ' :: capFirst w2 := by
  unfold capitalizeWords
  rw [splitOnChar_sep_append ' ' w1 w2 h1, splitOnChar_no_sep ' ' w2 h2]
  rfl

theorem extractName_shape (N : List Char) (st : ConversationState)
    (cap : List Char) (hst : st = .greeting ∨ st = .collecting_name)
    (hintro : scanFor introNameAt N = none)
    (hwhole : wholeNameMatch N = some cap) :
    extractName N st = some (String.mk (capitalizeWords cap)) := by
  unfold extractName
  have hcond : ¬(st ≠ ConversationState.collecting_name ∧
      st ≠ ConversationState.greeting) := by
    rcases hst with rfl | rfl <;> simp
  rw [if_neg hcond, hintro, hwhole]

theorem applyName_sets (N : List Char) (st : ConversationState)
    (s : ConversationSlots) (nm : String)
    (hempty : strFilled s.customerName = false)
    (hst : st = .greeting ∨ st = .collecting_name)
    (hname : extractName N st = some nm) :
    applyName N st s = { s with customerName := some nm } := by
  unfold applyName
  have hguard : (!strFilled s.customerName &&
      (st = ConversationState.greeting ||
        st = ConversationState.collecting_name)) = true := by
    rw [hempty]
    rcases hst with rfl | rfl <;> rfl
  rw [if_pos hguard, hname]

theorem applyGuests_name (m : List Char) (st : ConversationState)
    (s : ConversationSlots) :
    (applyGuests m st s).customerName = s.customerName := by
  unfold applyGuests
  split
  · cases extractBilingualNumber (String.mk m) <;> rfl
  · rfl

theorem applyDate_name (today : Int) (m : List Char) (st : ConversationState)
    (s : ConversationSlots) :
    (applyDate today m st s).customerName = s.customerName := by
  unfold applyDate
  split
  · cases (extractBilingualDate today (String.mk m)).map formatDate <;> rfl
  · rfl

theorem applyTime_name (m : List Char) (st : ConversationState)
    (s : ConversationSlots) :
    (applyTime m st s).customerName = s.customerName := by
  unfold applyTime
  split
  · cases extractBilingualTime (String.mk m) <;> rfl
  · rfl

theorem applyCuisine_name (m : List Char) (st : ConversationState)
    (s : ConversationSlots) :
    (applyCuisine m st s).customerName = s.customerName := by
  unfold applyCuisine
  split
  · cases extractBilingualCuisine (String.mk m) <;> rfl
  · rfl

theorem applySpecial_name (m : List Char) (s : ConversationSlots) :
    (applySpecial m s).customerName = s.customerName := by
  simp only [applySpecial]
  split <;> split <;> rfl

/-- The result state of `extractSlots` is the flag recomputation on its own
result slots. -/
theorem extractSlots_state_flags (today : Int) (message : String)
    (slots : ConversationSlots) (st : ConversationState) :
    (extractSlots today message slots st).state =
      nextStateFromFlags
        (strFilled (extractSlots today message slots st).slots.customerName)
        (numFilled (extractSlots today message slots st).slots.numberOfGuests)
        (strFilled (extractSlots today message slots st).slots.bookingDate)
        (strFilled (extractSlots today message slots st).slots.bookingTime)
        (strFilled (extractSlots today message slots st).slots.cuisinePreference)
        st :=
  rfl

theorem strFilled_mk_cons (c : Char) (l : List Char) :
    strFilled (some (String.mk (c :: l))) = true := rfl

theorem nextStateFromFlags_hasName_ge2 :
    ∀ (b c d e : Bool) (st : ConversationState),
      2 ≤ stateIndex (nextStateFromFlags true b c d e st) := by
  intro b c d e st
  revert b c d e
  cases st <;> decide

theorem extractSlots_name_core (today : Int) (message : String)
    (slots : ConversationSlots) (state : ConversationState) (cap : List Char)
    (hst : state = .greeting ∨ state = .collecting_name)
    (hempty : strFilled slots.customerName = false)
    (hintro : scanFor introNameAt (normalizeText message) = none)
    (hwhole : wholeNameMatch (normalizeText message) = some cap) :
    (extractSlots today message slots state).slots.customerName =
      some (String.mk (capitalizeWords cap)) := by
  have hname := extractName_shape (normalizeText message) state cap hst hintro
    hwhole
  show (applySpecial (normalizeText message)
      (applyCuisine (normalizeText message) state
        (applyTime (normalizeText message) state
          (applyDate today (normalizeText message) state
            (applyGuests (normalizeText message) state
              (applyName (normalizeText message) state slots)))))).customerName
    = some (String.mk (capitalizeWords cap))
  rw [applySpecial_name, applyCuisine_name, applyTime_name, applyDate_name,
    applyGuests_name, applyName_sets _ _ _ _ hempty hst hname]

/-- Empty slot set (a fresh session). -/
def emptySlots : ConversationSlots :=
  { customerName := none, numberOfGuests := none, bookingDate := none,
    bookingTime := none, cuisinePreference := none, specialRequests := none }

/-- **C10.** While the session is in `greeting` or `collecting_name` with
`customerName` empty, every utterance whose normalisation is exactly one or
exactly two purely alphabetic words is accepted as the customer name with
each word's first letter capitalised, and the state advances; in particular
the non-name reply "not sure" fills `customerName` with "Not Sure". -/
theorem one_or_two_word_reply_becomes_name :
    (∀ (today : Int) (message : String) (slots : ConversationSlots)
        (state : ConversationState) (w1 : List Char),
      (state = .greeting ∨ state = .collecting_name) →
      strFilled slots.customerName = false →
      w1 ≠ [] → (∀ c ∈ w1, isLowerAlpha c = true) →
      normalizeText message = w1 →
      (extractSlots today message slots state).slots.customerName =
          some (String.mk (capFirst w1)) ∧
        stateIndex state <
          stateIndex (extractSlots today message slots state).state) ∧
    (∀ (today : Int) (message : String) (slots : ConversationSlots)
        (state : ConversationState) (w1 w2 : List Char),
      (state = .greeting ∨ state = .collecting_name) →
      strFilled slots.customerName = false →
      w1 ≠ [] → w2 ≠ [] →
      (∀ c ∈ w1, isLowerAlpha c = true) →
      (∀ c ∈ w2, isLowerAlpha c = true) →
      normalizeText message = w1 ++ ' ' :: w2 →
      (extractSlots today message slots state).slots.customerName =
          some (String.mk (capFirst w1 ++ ' ' :: capFirst w2)) ∧
        stateIndex state <
          stateIndex (extractSlots today message slots state).state) ∧
    (extractSlots 0 "not sure" emptySlots .collecting_name).slots.customerName
      = some "Not Sure" := by
  have hlt : ∀ (today : Int) (message : String) (slots : ConversationSlots)
      (state : ConversationState) (c : Char) (l : List Char),
      (state = .greeting ∨ state = .collecting_name) →
      (extractSlots today message slots state).slots.customerName =
        some (String.mk (c :: l)) →
      stateIndex state <
        stateIndex (extractSlots today message slots state).state := by
    intro today message slots state c l hst hcust
    have hidx : stateIndex state ≤ 1 := by rcases hst with rfl | rfl <;> decide
    have h2 : 2 ≤ stateIndex (extractSlots today message slots state).state := by
      rw [extractSlots_state_flags, hcust, strFilled_mk_cons]
      exact nextStateFromFlags_hasName_ge2 _ _ _ _ state
    omega
  refine ⟨?_, ?_, by decide⟩
  · intro today message slots state w1 hst hempty hne hw1 hnorm
    obtain ⟨c1, w1', rfl⟩ : ∃ c1 w1', w1 = c1 :: w1' := by
      cases w1 with
      | nil => exact absurd rfl hne
      | cons c1 w1' => exact ⟨c1, w1', rfl⟩
    have hcap : capitalizeWords (c1 :: w1') = capFirst (c1 :: w1') :=
      capitalizeWords_single _ (space_notMem_of_alpha _ hw1)
    have hcust := extractSlots_name_core today message slots state (c1 :: w1')
      hst hempty
      (by rw [hnorm]; exact scanFor_introNameAt_alpha _ hw1)
      (by rw [hnorm]; exact wholeNameMatch_single _ hw1 hne)
    rw [hcap] at hcust
    exact ⟨hcust, hlt today message slots state (jsToUpper c1) w1' hst
      (by rw [hcust]; rfl)⟩
  · intro today message slots state w1 w2 hst hempty hne1 hne2 hw1 hw2 hnorm
    obtain ⟨c1, w1', rfl⟩ : ∃ c1 w1', w1 = c1 :: w1' := by
      cases w1 with
      | nil => exact absurd rfl hne1
      | cons c1 w1' => exact ⟨c1, w1', rfl⟩
    have hcap : capitalizeWords ((c1 :: w1') ++ ' ' :: w2) =
        capFirst (c1 :: w1') ++ ' ' :: capFirst w2 :=
      capitalizeWords_double _ _ (space_notMem_of_alpha _ hw1)
        (space_notMem_of_alpha _ hw2)
    have hcust := extractSlots_name_core today message slots state
      ((c1 :: w1') ++ ' ' :: w2) hst hempty
      (by rw [hnorm]; exact scanFor_introNameAt_mixed _ _ hw1 hw2)
      (by rw [hnorm]; exact wholeNameMatch_double _ _ hw1 hw2 hne1 hne2)
    rw [hcap] at hcust
    exact ⟨hcust, hlt today message slots state (jsToUpper c1)
      (w1' ++ ' ' :: capFirst w2) hst (by rw [hcust]; rfl)⟩

/-- Witness for `one_or_two_word_reply_becomes_name` at the utterance
"not sure" in `collecting_name`. -/
theorem one_or_two_word_reply_becomes_name_witness :
    (extractSlots 0 "not sure" emptySlots
        ConversationState.collecting_name).slots.customerName =
      some (String.mk (capFirst "not".toList ++ ' ' :: capFirst "sure".toList)) ∧
    stateIndex ConversationState.collecting_name <
      stateIndex (extractSlots 0 "not sure" emptySlots
        ConversationState.collecting_name).state :=
  one_or_two_word_reply_becomes_name.2.1 0 "not sure" emptySlots
    ConversationState.collecting_name "not".toList "sure".toList
    (Or.inr rfl) (by decide) (by decide) (by decide) (by decide) (by decide)
    (by decide)

end VoiceAgent
